import Mathlib

/-!
Verification of the execution/monitoring engine of the miow-context repository.

Each Rust function of the engine is shallowly embedded as an executable Lean
definition, translated from the source:

* `crates/miow-agent/src/enhanced_planner.rs` — plan model, cycle validation,
  readiness resolution (`validate_plan`, `get_ready_steps`);
* `crates/miow-agent/src/self_monitor.rs` — execution history, health metrics,
  loop detection (`record_step_start`, `record_step_complete`, `check_health`,
  `LoopDetector`);
* `crates/miow-agent/src/autonomous.rs` — the bounded autonomous step loop
  (`AutonomousAgent::run`);
* `src/orchestrator.rs` — worker fan-out and rule-based context merging
  (`execute_workers_sequentially`, `merge_contexts_rule_based`).

Machine integers are modelled as `Nat` (no arithmetic here approaches the
fixed widths), `Instant`/`Duration` values as `Nat` nanosecond counts, and
fallible calls as `Except String`/`Option` values.  Stateful methods take and
return the owning structure explicitly; the ambient clock (`Instant::now()`)
is passed in as an explicit `now : Nat` argument.
-/

namespace Miow

/-! ## Plan model (enhanced_planner.rs)

`PlanStep` is recursive through `fallback_steps`, hence an inductive with a
single constructor plus accessor functions.  Field order and names follow the
Rust struct; `arguments : HashMap<String, String>` is modelled as an
association list (the engine never reads it). -/

inductive PlanStep : Type where
  | mk
      (id : String)
      (description : String)
      (tool : String)
      (arguments : List (String × String))
      (expected_output : String)
      (dependencies : List String)
      (fallback_steps : List PlanStep)
      (timeout : Nat)
      (retries : Nat)
  deriving Repr

def PlanStep.id : PlanStep → String
  | .mk i _ _ _ _ _ _ _ _ => i

def PlanStep.dependencies : PlanStep → List String
  | .mk _ _ _ _ _ d _ _ _ => d

def PlanStep.fallback_steps : PlanStep → List PlanStep
  | .mk _ _ _ _ _ _ f _ _ => f

/-- Replace a step's fallback list (the other fields unchanged). -/
def PlanStep.withFallbacks : PlanStep → List PlanStep → PlanStep
  | .mk i de t a e dp _ ti r, f => .mk i de t a e dp f ti r

structure ExecutionPlan : Type where
  goal : String
  steps : List PlanStep
  estimated_duration : Nat
  created_at : Nat

/-! ### The visited map

`validate_plan` keeps a `HashMap<String, bool>`; the engine only ever calls
`get` and `insert`, so the map is modelled as an association list where
insertion prepends and lookup takes the first hit. -/

def VMap : Type := List (String × Bool)

def VMap.empty : VMap := []

def VMap.lookup (v : VMap) (k : String) : Option Bool :=
  ((List.find? (fun p => p.1 == k) v)).map (·.2)

def VMap.insert (v : VMap) (k : String) (b : Bool) : VMap :=
  (k, b) :: v

theorem VMap.lookup_insert_self (v : VMap) (k : String) (b : Bool) :
    (v.insert k b).lookup k = some b := by
  simp [VMap.lookup, VMap.insert, List.find?]

theorem VMap.lookup_insert_ne (v : VMap) (k k' : String) (b : Bool)
    (h : k' ≠ k) : (v.insert k b).lookup k' = v.lookup k' := by
  simp only [VMap.lookup, VMap.insert, List.find?]
  have : ((k, b).1 == k') = false := by
    simp only [beq_eq_false_iff_ne, ne_eq]
    exact fun hk => h hk.symm
  simp [this]

/-! ### Cycle detection

`EnhancedPlanner::has_circular_dependency` is a recursive depth-first search:
it returns the stored flag when the step id is already in the map, otherwise
marks the id `true` (in progress), scans the dependency ids — recursing into
the first step found for each id — and finally overwrites the mark with
`false` (resolved).  The recursion (the function itself and its `for` loop
over `dependencies`) is written as a single Lean function over a task marker,
structurally recursive on an explicit fuel counter; `validate_plan` passes a
fuel that is proved sufficient (`circGo_total`). -/

inductive CircTask : Type where
  | step (s : PlanStep)
  | deps (ds : List String)

def circGo (all : List PlanStep) :
    Nat → CircTask → VMap → Option (Bool × VMap)
  | 0, _, _ => none
  | fuel + 1, .step s, visited =>
    match visited.lookup s.id with
    | some inProgress => some (inProgress, visited)
    | none =>
      match circGo all fuel (.deps s.dependencies) (visited.insert s.id true) with
      | none => none
      | some (true, v2) => some (true, v2)
      | some (false, v2) => some (false, v2.insert s.id false)
  | _ + 1, .deps [], visited => some (false, visited)
  | fuel + 1, .deps (d :: ds), visited =>
    match List.find? (fun s => s.id == d) all with
    | none => circGo all fuel (.deps ds) visited
    | some depStep =>
      match circGo all fuel (.step depStep) visited with
      | none => none
      | some (true, v2) => some (true, v2)
      | some (false, v2) => circGo all fuel (.deps ds) v2

/-- Maximum dependency-list length over the plan's steps. -/
def maxDepsLen (all : List PlanStep) : Nat :=
  all.foldr (fun s acc => max s.dependencies.length acc) 0

/-- Fuel passed by `validate_plan`; proved sufficient below. -/
def planFuel (all : List PlanStep) : Nat :=
  (maxDepsLen all + 2) * ((all.map PlanStep.id).dedup.length) + 2

/-- The `for step in &plan.steps` loop of `EnhancedPlanner::validate_plan`:
the visited map is shared across iterations, and the loop bails out with the
error as soon as one traversal reports a cycle. -/
def validateGo (all : List PlanStep) (fuel : Nat) :
    List PlanStep → VMap → Option (Except String Unit)
  | [], _ => some (.ok ())
  | s :: rest, v =>
    match circGo all fuel (.step s) v with
    | none => none
    | some (true, _) => some (.error "Circular dependency detected in plan")
    | some (false, v') => validateGo all fuel rest v'

/-- `EnhancedPlanner::validate_plan`.  The `getD` default is unreachable:
`circGo_total` and `validateGo_spec` show the fuel always suffices. -/
def validate_plan (plan : ExecutionPlan) : Except String Unit :=
  (validateGo plan.steps (planFuel plan.steps) plan.steps VMap.empty).getD
    (.error "fuel exhausted")

/-- `EnhancedPlanner::get_ready_steps`: the steps, in plan order, that are not
yet completed and whose dependencies are all completed. -/
def get_ready_steps (plan : ExecutionPlan) (completed_steps : List String) :
    List PlanStep :=
  plan.steps.filter (fun step =>
    !completed_steps.contains step.id &&
      step.dependencies.all (fun dep => completed_steps.contains dep))

/-! ### The dependency graph, from the spec

The spec's graph has an edge from a step's id to each id in that step's
`dependencies`; a plan is acyclic when no id reaches itself through one or
more edges. -/

/-- One `dependencies` edge of the plan's step graph. -/
def depRel (all : List PlanStep) (a b : String) : Prop :=
  ∃ s, s ∈ all ∧ s.id = a ∧ b ∈ s.dependencies

/-- The spec's acyclicity: no id lies on a dependency cycle. -/
def PlanAcyclic (plan : ExecutionPlan) : Prop :=
  ¬ ∃ x, Relation.TransGen (depRel plan.steps) x x

/-- The documented assumption on plans: every id referenced in a step's
`dependencies` names a step of the same plan. -/
def DepsClosed (plan : ExecutionPlan) : Prop :=
  ∀ s ∈ plan.steps, ∀ d ∈ s.dependencies, ∃ t ∈ plan.steps, t.id = d

/-- The data-model invariant: step ids are unique within a plan. -/
def NodupIds (plan : ExecutionPlan) : Prop :=
  (plan.steps.map PlanStep.id).Nodup

instance (plan : ExecutionPlan) : Decidable (DepsClosed plan) := by
  unfold DepsClosed; infer_instance

instance (plan : ExecutionPlan) : Decidable (NodupIds plan) := by
  unfold NodupIds; infer_instance

/-! ## Claim C2: readiness resolution -/

/-- **C2.** For every plan and completed-id set, `get_ready_steps` returns
exactly the steps whose id is not completed and all of whose dependency ids
are completed (steps with no dependencies are returned when not yet
completed), as a subsequence of the plan's step list; in particular a step
whose id is completed never appears in the output. -/
theorem get_ready_steps_spec (plan : ExecutionPlan) (completed : List String) :
    (∀ s, s ∈ get_ready_steps plan completed ↔
        s ∈ plan.steps ∧ s.id ∉ completed ∧ ∀ d ∈ s.dependencies, d ∈ completed)
    ∧ (get_ready_steps plan completed).Sublist plan.steps
    ∧ ∀ s ∈ get_ready_steps plan completed, s.id ∉ completed := by
  refine ⟨fun s => ?_, List.filter_sublist _, fun s hs => ?_⟩
  · simp [get_ready_steps, List.mem_filter, List.elem_iff, and_assoc]
  · have := (List.mem_filter.mp hs).2
    simp only [Bool.and_eq_true, Bool.not_eq_true'] at this
    intro hmem
    have hc : completed.contains s.id = true := List.elem_iff.mpr hmem
    rw [this.1] at hc
    exact Bool.false_ne_true hc

/-- A small concrete plan: `s1` with no dependencies, `s2` depending on
`s1`. -/
def sampleStep1 : PlanStep := .mk "s1" "" "search" [] "" [] [] 60 2

def sampleStep2 : PlanStep := .mk "s2" "" "analyze" [] "" ["s1"] [] 60 2

def samplePlan : ExecutionPlan := ⟨"goal", [sampleStep1, sampleStep2], 120, 0⟩

/-- **C2 witness.** -/
theorem get_ready_steps_spec_witness :
    sampleStep2 ∈ get_ready_steps samplePlan ["s1"]
    ∧ (get_ready_steps samplePlan ["s1"]).Sublist samplePlan.steps
    ∧ sampleStep2.id ∉ ["s1"] := by
  have hmem : sampleStep2 ∈ get_ready_steps samplePlan ["s1"] :=
    ((get_ready_steps_spec samplePlan ["s1"]).1 sampleStep2).mpr
      ⟨List.mem_cons_of_mem _ (List.mem_cons_self _ _), by decide, by decide⟩
  exact ⟨hmem, (get_ready_steps_spec samplePlan ["s1"]).2.1,
    (get_ready_steps_spec samplePlan ["s1"]).2.2 sampleStep2 hmem⟩

/-! ## Self monitor (self_monitor.rs)

`Instant` values and `Duration`s are modelled as `Nat` nanosecond counts
(`Duration` arithmetic in the source — `*`, `+`, `/` — is exact nanosecond
arithmetic with truncating division).  `Instant::now()` becomes an explicit
`now` argument. -/

def nanosPerSec : Nat := 1000000000

structure ExecutionRecord : Type where
  step_id : String
  started_at : Nat
  completed_at : Option Nat
  success : Bool
  error : Option String
  retry_count : Nat
  deriving Repr, DecidableEq

structure HealthMetrics : Type where
  total_steps : Nat
  successful_steps : Nat
  failed_steps : Nat
  average_step_duration : Nat
  stuck_count : Nat
  loop_count : Nat
  deriving Repr, DecidableEq

def HealthMetrics.init : HealthMetrics := ⟨0, 0, 0, 0, 0, 0⟩

/-- `HealthIssue`; `rate: f32` is modelled as `Float`. -/
inductive HealthIssue : Type where
  | stuckState (step_id : String) (duration : Nat)
  | highFailureRate (rate : Float)
  | infiniteLoop (pattern_ : String)
  | timeout (step_id : String) (expected : Nat) (actual : Nat)
  | excessiveRetries (step_id : String) (retry_count : Nat)

structure LoopDetector : Type where
  recent_steps : List String
  max_history : Nat
  deriving Repr, DecidableEq

structure SelfMonitor : Type where
  execution_history : List ExecutionRecord
  health_metrics : HealthMetrics
  loop_detector : LoopDetector
  deriving Repr, DecidableEq

/-- `SelfMonitor::new`. -/
def SelfMonitor.new : SelfMonitor :=
  ⟨[], HealthMetrics.init, ⟨[], 20⟩⟩

/-- `LoopDetector::add_step`: push, then drop the oldest entry if the window
exceeds `max_history`. -/
def LoopDetector.add_step (d : LoopDetector) (step_id : String) : LoopDetector :=
  let l := d.recent_steps ++ [step_id]
  ⟨if d.max_history < l.length then l.drop 1 else l, d.max_history⟩

/-- `LoopDetector::detect_loop`: flag when the last three window entries are
identical, else when the last six are two copies of the same triple. -/
def LoopDetector.detect_loop (d : LoopDetector) : Option HealthIssue :=
  let simple : Option HealthIssue :=
    if 3 ≤ d.recent_steps.length then
      match d.recent_steps.drop (d.recent_steps.length - 3) with
      | [a, b, c] =>
        if a == b && b == c then
          some (.infiniteLoop ("Repeated step: " ++ a))
        else none
      | _ => none
    else none
  match simple with
  | some i => some i
  | none =>
    if 6 ≤ d.recent_steps.length then
      let pattern1 := (d.recent_steps.drop (d.recent_steps.length - 6)).take 3
      let pattern2 := d.recent_steps.drop (d.recent_steps.length - 3)
      if pattern1 == pattern2 then
        some (.infiniteLoop ("Repeated pattern: " ++ toString pattern1))
      else none
    else none

/-- `SelfMonitor::record_step_start`. -/
def SelfMonitor.record_step_start (m : SelfMonitor) (step_id : String)
    (now : Nat) : SelfMonitor :=
  { m with
    execution_history :=
      m.execution_history ++ [⟨step_id, now, none, false, none, 0⟩]
    loop_detector := m.loop_detector.add_step step_id
    health_metrics :=
      { m.health_metrics with total_steps := m.health_metrics.total_steps + 1 } }

/-- `self.execution_history.iter_mut().rev().find(p)` followed by an in-place
update: rewrite the *last* record satisfying `p`, returning the updated list
together with the updated record. -/
def updateLastMatching (p : ExecutionRecord → Bool)
    (f : ExecutionRecord → ExecutionRecord) :
    List ExecutionRecord → Option (List ExecutionRecord × ExecutionRecord)
  | [] => none
  | r :: rs =>
    match updateLastMatching p f rs with
    | some (rs', rec) => some (r :: rs', rec)
    | none => if p r then some (f r :: rs, f r) else none

/-- `SelfMonitor::update_average_duration`. -/
def update_average_duration (metrics : HealthMetrics) (new_duration : Nat) :
    HealthMetrics :=
  let total_completed := metrics.successful_steps + metrics.failed_steps
  if total_completed = 0 then
    { metrics with average_step_duration := new_duration }
  else
    { metrics with
      average_step_duration :=
        (metrics.average_step_duration * (total_completed - 1) + new_duration) /
          total_completed }

/-- `SelfMonitor::record_step_complete`: close the most recent record whose id
matches (whether or not it is still open), bump the success/failure counter,
and fold the record's duration into the running average. -/
def SelfMonitor.record_step_complete (m : SelfMonitor) (step_id : String)
    (success : Bool) (error : Option String) (now : Nat) : SelfMonitor :=
  match updateLastMatching (fun r => r.step_id == step_id)
      (fun r => { r with completed_at := some now, success := success,
                         error := error })
      m.execution_history with
  | none => m
  | some (hist', rec) =>
    let metrics :=
      if success then
        { m.health_metrics with
          successful_steps := m.health_metrics.successful_steps + 1 }
      else
        { m.health_metrics with
          failed_steps := m.health_metrics.failed_steps + 1 }
    let duration := (rec.completed_at.getD 0) - rec.started_at
    { m with
      execution_history := hist'
      health_metrics := update_average_duration metrics duration }

/-- `SelfMonitor::check_stuck_state`: only the most recently started record is
examined, and only while it is still open. -/
def check_stuck_state (m : SelfMonitor) (now : Nat) : Option HealthIssue :=
  match m.execution_history.getLast? with
  | none => none
  | some last =>
    if last.completed_at = none then
      let duration := now - last.started_at
      if 120 * nanosPerSec < duration then
        some (.stuckState last.step_id (duration / nanosPerSec))
      else none
    else none

/-- `SelfMonitor::check_failure_rate` (the `f32` rate is modelled as
`Float`). -/
def check_failure_rate (m : SelfMonitor) : Option HealthIssue :=
  if 5 < m.health_metrics.total_steps then
    let failure_rate :=
      (Float.ofNat m.health_metrics.failed_steps) /
        (Float.ofNat m.health_metrics.total_steps)
    if 0.5 < failure_rate then some (.highFailureRate failure_rate) else none
  else none

/-- `SelfMonitor::check_timeouts`: one finding per *closed* record whose
duration exceeds the fixed 60-second reference. -/
def check_timeouts (m : SelfMonitor) : List HealthIssue :=
  m.execution_history.filterMap (fun record =>
    match record.completed_at with
    | none => none
    | some completed_at =>
      let duration := completed_at - record.started_at
      if 60 * nanosPerSec < duration then
        some (.timeout record.step_id 60 (duration / nanosPerSec))
      else none)

/-- `SelfMonitor::check_excessive_retries`. -/
def check_excessive_retries (m : SelfMonitor) : List HealthIssue :=
  m.execution_history.filterMap (fun record =>
    if 3 < record.retry_count then
      some (.excessiveRetries record.step_id record.retry_count)
    else none)

/-- `SelfMonitor::check_health`: runs the five detectors in order, collecting
their findings; a stuck finding bumps `stuck_count` and a loop finding bumps
`loop_count`. -/
def SelfMonitor.check_health (m : SelfMonitor) (now : Nat) :
    List HealthIssue × SelfMonitor :=
  let (issues1, metrics1) :=
    match check_stuck_state m now with
    | some stuck =>
      ([stuck],
        { m.health_metrics with stuck_count := m.health_metrics.stuck_count + 1 })
    | none => ([], m.health_metrics)
  let issues2 :=
    match check_failure_rate m with
    | some failure => issues1 ++ [failure]
    | none => issues1
  let (issues3, metrics3) :=
    match m.loop_detector.detect_loop with
    | some loopIssue =>
      (issues2 ++ [loopIssue],
        { metrics1 with loop_count := metrics1.loop_count + 1 })
    | none => (issues2, metrics1)
  let issues4 := issues3 ++ check_timeouts m
  let issues5 := issues4 ++ check_excessive_retries m
  (issues5, { m with health_metrics := metrics3 })

/-! ## Claim C3: loop detection -/

/-- Feeding a sequence of started step ids into a fresh detector
(window capacity 20), as `record_step_start` does. -/
def feedSteps (ids : List String) : LoopDetector :=
  ids.foldl LoopDetector.add_step ⟨[], 20⟩

/-- The `n` most recent entries of a list. -/
def lastN (n : Nat) (l : List String) : List String :=
  l.drop (l.length - n)

/-- Spec wording: the last 3 entries are identical (immediate repetition). -/
def SpecSimpleLoop (l : List String) : Prop :=
  3 ≤ l.length ∧ ∃ x, lastN 3 l = [x, x, x]

/-- Spec wording: the last 6 entries are two back-to-back repetitions of the
same 3-id sequence (periodic repetition). -/
def SpecPatternLoop (l : List String) : Prop :=
  6 ≤ l.length ∧ ∃ p : List String, p.length = 3 ∧ lastN 6 l = p ++ p

/-- Spec wording: the detector fires exactly on one of the two tail checks. -/
def SpecLoopDetected (l : List String) : Prop :=
  SpecSimpleLoop l ∨ SpecPatternLoop l

theorem length_lastN (n : Nat) (l : List String) :
    (lastN n l).length = min n l.length := by
  simp [lastN]; omega

theorem feedSteps_recent (ids : List String) :
    (feedSteps ids).recent_steps = lastN 20 ids ∧
      (feedSteps ids).max_history = 20 := by
  induction ids using List.reverseRecOn with
  | nil => simp [feedSteps, lastN]
  | append_singleton ids x ih =>
    unfold feedSteps at ih ⊢
    rw [List.foldl_append]
    simp only [List.foldl_cons, List.foldl_nil]
    rcases ih with ⟨hrec, hmax⟩
    refine ⟨?_, by simp [LoopDetector.add_step, hmax]⟩
    simp only [LoopDetector.add_step, hrec, hmax]
    by_cases hlen : ids.length < 20
    · have h1 : lastN 20 ids = ids := by
        rw [lastN, Nat.sub_eq_zero_of_le (by omega), List.drop_zero]
      have h2 : ¬ 20 < (lastN 20 ids ++ [x]).length := by
        rw [h1]; simp; omega
      rw [if_neg h2, h1, lastN, Nat.sub_eq_zero_of_le (by simp; omega),
        List.drop_zero]
    · push_neg at hlen
      have hlast : (lastN 20 ids).length = 20 := by
        rw [lastN]; simp; omega
      have h2 : 20 < (lastN 20 ids ++ [x]).length := by
        simp [hlast]
      rw [if_pos h2]
      rw [lastN, List.drop_append_of_le_length (by simp; omega), lastN,
        List.drop_drop]
      have e2 : (ids.length - 20 + 1 : Nat) = ids.length + 1 - 20 := by omega
      rw [e2]
      rw [List.drop_append_of_le_length (by simp)]
      congr 1
      simp


theorem detect_loop_spec (d : LoopDetector) :
    d.detect_loop.isSome ↔ SpecLoopDetected d.recent_steps := by
  unfold LoopDetector.detect_loop
  set l := d.recent_steps with hl
  clear_value l
  by_cases h3 : 3 ≤ l.length
  · have hlen3 : (l.drop (l.length - 3)).length = 3 := by
      simp; omega
    obtain ⟨a, b, c, hdrop3⟩ : ∃ a b c, l.drop (l.length - 3) = [a, b, c] := by
      match h : l.drop (l.length - 3), hlen3 with
      | [a, b, c], _ => exact ⟨a, b, c, rfl⟩
    rw [if_pos h3, hdrop3]
    dsimp only
    by_cases heq : a = b ∧ b = c
    · have hb : (a == b && b == c) = true := by
        simp [heq.1, heq.2]
      rw [hb, if_pos rfl]
      simp only [Option.isSome_some, true_iff]
      exact Or.inl ⟨h3, a, by rw [lastN, hdrop3, heq.1, heq.2]⟩
    · have hb : (a == b && b == c) = false := by
        rcases not_and_or.mp heq with h | h
        · simp [h]
        · simp [h]
      rw [hb]
      simp only [Bool.false_eq_true, if_false]
      have hnotsimple : ¬ SpecSimpleLoop l := by
        rintro ⟨-, x, hx⟩
        rw [lastN, hdrop3] at hx
        obtain ⟨e1, e2, e3⟩ : a = x ∧ b = x ∧ c = x := by
          simpa using hx
        exact heq ⟨e1.trans e2.symm, e2.trans e3.symm⟩
      by_cases h6 : 6 ≤ l.length
      · rw [if_pos h6]
        have hsplit : l.drop (l.length - 6) =
            (l.drop (l.length - 6)).take 3 ++ l.drop (l.length - 3) := by
          conv_lhs => rw [← List.take_append_drop 3 (l.drop (l.length - 6))]
          rw [List.drop_drop]
          congr 2
          omega
        have hlen6 : (l.drop (l.length - 6)).length = 6 := by simp; omega
        have hlenp1 : ((l.drop (l.length - 6)).take 3).length = 3 := by
          simp [hlen6]
        by_cases hpq : (l.drop (l.length - 6)).take 3 = [a, b, c]
        · rw [if_pos (by simp [hpq])]
          simp only [Option.isSome_some, true_iff]
          refine Or.inr ⟨h6, (l.drop (l.length - 6)).take 3, hlenp1, ?_⟩
          rw [lastN]
          conv_lhs => rw [hsplit]
          rw [hdrop3, hpq]
        · rw [if_neg (by simp [hpq])]
          simp only [Option.isSome_none, Bool.false_eq_true, false_iff]
          rintro (h | ⟨-, p, hp, hpp⟩)
          · exact hnotsimple h
          · rw [lastN, hsplit] at hpp
            obtain ⟨e1, e2⟩ := List.append_inj hpp (by rw [hlenp1, hp])
            exact hpq (e1.trans (e2.symm.trans hdrop3))
      · rw [if_neg h6]
        simp only [Option.isSome_none, Bool.false_eq_true, false_iff]
        rintro (h | ⟨h, -⟩)
        · exact hnotsimple h
        · exact h6 h
  · rw [if_neg h3, if_neg (show ¬ 6 ≤ l.length by omega)]
    simp only [Option.isSome_none, Bool.false_eq_true, false_iff]
    rintro (⟨h, -⟩ | ⟨h, -⟩)
    · exact h3 h
    · exact h3 (by omega)

/-- **C3.** Over the bounded window of the 20 most recent started step ids,
the detector flags exactly when the last 3 window entries are identical or
the last 6 are two back-to-back copies of the same triple; `A,B,C,A,B,C`
flags, while `A,B,D,A,B,C` does not. -/
theorem loop_detector_flags_iff :
    (∀ ids : List String,
        (feedSteps ids).recent_steps = lastN 20 ids ∧
          ((feedSteps ids).detect_loop.isSome ↔ SpecLoopDetected (lastN 20 ids)))
      ∧ (feedSteps ["A", "B", "C", "A", "B", "C"]).detect_loop.isSome = true
      ∧ (feedSteps ["A", "B", "D", "A", "B", "C"]).detect_loop = none := by
  refine ⟨fun ids => ⟨(feedSteps_recent ids).1, ?_⟩, rfl, rfl⟩
  rw [detect_loop_spec, (feedSteps_recent ids).1]

/-! ## Claims C4 and C5: closing a record -/

theorem updateLastMatching_none (p : ExecutionRecord → Bool)
    (f : ExecutionRecord → ExecutionRecord) (l : List ExecutionRecord)
    (h : ∀ r ∈ l, p r = false) : updateLastMatching p f l = none := by
  induction l with
  | nil => rfl
  | cons r rs ih =>
    rw [updateLastMatching, ih (fun r' hr' => h r' (List.mem_cons_of_mem r hr'))]
    rw [h r (List.mem_cons_self r rs), if_neg (by simp)]

theorem updateLastMatching_append (p : ExecutionRecord → Bool)
    (f : ExecutionRecord → ExecutionRecord) (pre : List ExecutionRecord)
    (r : ExecutionRecord) (post : List ExecutionRecord)
    (hr : p r = true) (hpost : ∀ r' ∈ post, p r' = false) :
    updateLastMatching p f (pre ++ r :: post) =
      some (pre ++ f r :: post, f r) := by
  induction pre with
  | nil =>
    rw [List.nil_append, updateLastMatching,
      updateLastMatching_none p f post hpost, if_pos hr, List.nil_append]
  | cons q qre ih =>
    rw [List.cons_append, updateLastMatching, ih, List.cons_append]

/-- The claim's wording for `record_step_complete`: find the most recent
*open* record for the id and close it; do nothing when no open record for
that id exists.  (Comparison definition for claim C4; the source code does
not test openness.) -/
def record_step_complete_specOpen (m : SelfMonitor) (step_id : String)
    (success : Bool) (error : Option String) (now : Nat) : SelfMonitor :=
  match updateLastMatching
      (fun r => r.step_id == step_id && r.completed_at.isNone)
      (fun r => { r with completed_at := some now, success := success,
                         error := error })
      m.execution_history with
  | none => m
  | some (hist', rec) =>
    let metrics :=
      if success then
        { m.health_metrics with
          successful_steps := m.health_metrics.successful_steps + 1 }
      else
        { m.health_metrics with
          failed_steps := m.health_metrics.failed_steps + 1 }
    let duration := (rec.completed_at.getD 0) - rec.started_at
    { m with
      execution_history := hist'
      health_metrics := update_average_duration metrics duration }

/-- A monitor whose only record for id `"a"` is already closed. -/
def closedMonitor : SelfMonitor :=
  (SelfMonitor.new.record_step_start "a" 0).record_step_complete
    "a" true none (5 * nanosPerSec)

/-- **C4 counterexample.**  On a history whose only record for the id is
already closed, the claim ("closes the most recent OPEN record") predicts
that a further `record_step_complete` changes nothing — there is no open
record — but the code re-closes the closed record and bumps `failed_steps`
to 1; the code result differs from the claim-worded result. -/
theorem record_step_complete_reopens_closed_record :
    (closedMonitor.record_step_complete "a" false none
        (9 * nanosPerSec)).health_metrics.failed_steps = 1
    ∧ record_step_complete_specOpen closedMonitor "a" false none
        (9 * nanosPerSec) = closedMonitor
    ∧ closedMonitor.record_step_complete "a" false none (9 * nanosPerSec) ≠
        record_step_complete_specOpen closedMonitor "a" false none
          (9 * nanosPerSec) := by
  refine ⟨rfl, rfl, by decide⟩

/-- Shared decomposition of one `record_step_complete` call: closing the
last matching record rewrites exactly that record, bumps the matching
counter and folds the duration into the average. -/
theorem record_step_complete_decompose
    (m : SelfMonitor) (id : String) (success : Bool) (error : Option String)
    (now : Nat) (pre : List ExecutionRecord) (r : ExecutionRecord)
    (post : List ExecutionRecord)
    (hhist : m.execution_history = pre ++ r :: post)
    (hrid : r.step_id = id)
    (hpost : ∀ r' ∈ post, r'.step_id ≠ id) :
    (m.record_step_complete id success error now).execution_history =
        pre ++ { r with completed_at := some now, success := success,
                        error := error } :: post
      ∧ (m.record_step_complete id success error now).health_metrics =
          { m.health_metrics with
            successful_steps :=
              m.health_metrics.successful_steps + (if success then 1 else 0)
            failed_steps :=
              m.health_metrics.failed_steps + (if success then 0 else 1)
            average_step_duration :=
              (m.health_metrics.average_step_duration *
                  (m.health_metrics.successful_steps +
                    m.health_metrics.failed_steps) + (now - r.started_at)) /
                (m.health_metrics.successful_steps +
                  m.health_metrics.failed_steps + 1) }
      ∧ (m.record_step_complete id success error now).loop_detector =
          m.loop_detector := by
  have hupd := updateLastMatching_append
    (fun r => r.step_id == id)
    (fun r => { r with completed_at := some now, success := success,
                       error := error })
    pre r post (by simp [hrid]) (fun r' hr' => by simp [hpost r' hr'])
  unfold SelfMonitor.record_step_complete
  rw [hhist, hupd]
  refine ⟨rfl, ?_, rfl⟩
  unfold update_average_duration
  cases success
  · simp +arith [HealthMetrics.mk.injEq, Nat.add_sub_cancel]
    rfl
  · simp +arith [HealthMetrics.mk.injEq, Nat.add_sub_cancel]
    congr 1
    omega

/-- **C4 (amended).**  `record_step_complete(id, success, error)` closes the
most recent record for the id — whether or not it is still open — setting its
completion time, success flag and error, and bumps the matching success or
failure counter; when no record for the id exists the monitor is unchanged.
After a single `record_step_start` followed by one `record_step_complete`,
`total_steps = 1` and `successful_steps`/`failed_steps` is 1 according to the
flag. -/
theorem record_step_complete_spec :
    (∀ (m : SelfMonitor) (id : String) (success : Bool) (error : Option String)
        (now : Nat) (pre : List ExecutionRecord) (r : ExecutionRecord)
        (post : List ExecutionRecord),
      m.execution_history = pre ++ r :: post →
      r.step_id = id →
      (∀ r' ∈ post, r'.step_id ≠ id) →
      (m.record_step_complete id success error now).execution_history =
          pre ++ { r with completed_at := some now, success := success,
                          error := error } :: post
        ∧ (m.record_step_complete id success error now).health_metrics =
            { m.health_metrics with
              successful_steps :=
                m.health_metrics.successful_steps + (if success then 1 else 0)
              failed_steps :=
                m.health_metrics.failed_steps + (if success then 0 else 1)
              average_step_duration :=
                (m.health_metrics.average_step_duration *
                    (m.health_metrics.successful_steps +
                      m.health_metrics.failed_steps) + (now - r.started_at)) /
                  (m.health_metrics.successful_steps +
                    m.health_metrics.failed_steps + 1) }
        ∧ (m.record_step_complete id success error now).loop_detector =
            m.loop_detector)
    ∧ (∀ (m : SelfMonitor) (id : String) (success : Bool)
        (error : Option String) (now : Nat),
        (∀ r ∈ m.execution_history, r.step_id ≠ id) →
        m.record_step_complete id success error now = m)
    ∧ (∀ (id : String) (success : Bool) (error : Option String) (t0 t1 : Nat),
        let m2 := (SelfMonitor.new.record_step_start id t0).record_step_complete
          id success error t1
        m2.health_metrics.total_steps = 1
          ∧ m2.health_metrics.successful_steps = (if success then 1 else 0)
          ∧ m2.health_metrics.failed_steps = (if success then 0 else 1)) := by
  refine ⟨?_, ?_, ?_⟩
  · intro m id success error now pre r post hhist hrid hpost
    exact record_step_complete_decompose m id success error now pre r post
      hhist hrid hpost
  · intro m id success error now hnone
    unfold SelfMonitor.record_step_complete
    rw [updateLastMatching_none _ _ _ (fun r hr => by simp [hnone r hr])]
  · intro id success error t0 t1
    cases success <;>
      simp [SelfMonitor.record_step_start, SelfMonitor.record_step_complete,
        SelfMonitor.new, HealthMetrics.init, updateLastMatching,
        update_average_duration]

/-- **C4 witness.** -/
theorem record_step_complete_spec_witness :
    ((SelfMonitor.new.record_step_start "a" 0).record_step_complete
        "a" true none 7).execution_history =
      [⟨"a", 0, some 7, true, none, 0⟩]
    ∧ (SelfMonitor.new.record_step_complete "b" true none 3 = SelfMonitor.new) := by
  have h1 := (record_step_complete_spec.1
    (SelfMonitor.new.record_step_start "a" 0) "a" true none 7
    [] ⟨"a", 0, none, false, none, 0⟩ [] rfl rfl (by simp)).1
  have h2 := record_step_complete_spec.2.1 SelfMonitor.new "b" true none 3
    (by simp [SelfMonitor.new])
  exact ⟨h1, h2⟩

/-- Number of closed records in a history. -/
def closedCount (h : List ExecutionRecord) : Nat :=
  h.countP (fun r => r.completed_at.isSome)

/-- **C5.**  When a completion genuinely closes an open record (and the
success/failure counters agree with the number of already-closed records, as
they do along normal monitor histories), the new running average follows
`new_avg = (old_avg * (n-1) + new_duration) / n`, with `n` the number of all
closed records after the close — successes and failures both counted. -/
theorem average_update_formula
    (m : SelfMonitor) (id : String) (success : Bool) (error : Option String)
    (now : Nat) (pre : List ExecutionRecord) (r : ExecutionRecord)
    (post : List ExecutionRecord)
    (hhist : m.execution_history = pre ++ r :: post)
    (hrid : r.step_id = id)
    (hpost : ∀ r' ∈ post, r'.step_id ≠ id)
    (hopen : r.completed_at = none)
    (hinv : m.health_metrics.successful_steps + m.health_metrics.failed_steps =
      closedCount m.execution_history) :
    closedCount (m.record_step_complete id success error now).execution_history =
        closedCount m.execution_history + 1
    ∧ (m.record_step_complete id success error now).health_metrics.average_step_duration =
        (m.health_metrics.average_step_duration *
            (closedCount (m.record_step_complete id success error now).execution_history - 1)
          + (now - r.started_at)) /
          closedCount (m.record_step_complete id success error now).execution_history := by
  obtain ⟨hh, hm, -⟩ := record_step_complete_decompose m id success error now
    pre r post hhist hrid hpost
  have hcount : closedCount (m.record_step_complete id success error now).execution_history =
      closedCount m.execution_history + 1 := by
    rw [hh, hhist]
    simp [closedCount, List.countP_append, List.countP_cons, hopen]
    omega
  refine ⟨hcount, ?_⟩
  rw [hcount, Nat.add_sub_cancel, hm, ← hinv]

/-- **C5 witness.** -/
theorem average_update_formula_witness :
    closedCount ((SelfMonitor.new.record_step_start "a" 2).record_step_complete
        "a" true none 10).execution_history = 1
    ∧ ((SelfMonitor.new.record_step_start "a" 2).record_step_complete
        "a" true none 10).health_metrics.average_step_duration = (0 * 0 + 8) / 1 := by
  have h := average_update_formula (SelfMonitor.new.record_step_start "a" 2)
    "a" true none 10 [] ⟨"a", 2, none, false, none, 0⟩ [] rfl rfl (by simp)
    rfl rfl
  exact ⟨h.1, h.2⟩


/-! ## Claim C10: check_health is not read-only -/

/-- Is an issue a `StuckState` finding? -/
def HealthIssue.isStuck : HealthIssue → Bool
  | .stuckState _ _ => true
  | _ => false

/-- Is an issue an `InfiniteLoop` finding? -/
def HealthIssue.isLoop : HealthIssue → Bool
  | .infiniteLoop _ => true
  | _ => false

theorem check_timeouts_no_stuck_loop (m : SelfMonitor) :
    (∀ i ∈ check_timeouts m, i.isStuck = false ∧ i.isLoop = false) ∧
      ∀ i ∈ check_excessive_retries m, i.isStuck = false ∧ i.isLoop = false := by
  constructor
  · intro i hi
    simp only [check_timeouts, List.mem_filterMap] at hi
    obtain ⟨r, -, hr⟩ := hi
    rcases hc : r.completed_at with _ | c
    · rw [hc] at hr; simp at hr
    · rw [hc] at hr
      dsimp only at hr
      split_ifs at hr with h
      cases hr; exact ⟨rfl, rfl⟩
  · intro i hi
    simp only [check_excessive_retries, List.mem_filterMap] at hi
    obtain ⟨r, -, hr⟩ := hi
    split_ifs at hr with h
    cases hr; exact ⟨rfl, rfl⟩

/-- **C10.**  `check_health` mutates the monitor: whenever the returned
issues contain a `StuckState` (resp. `InfiniteLoop`) finding, `stuck_count`
(resp. `loop_count`) is incremented by one, and this is the only mutation —
history, loop window and all other metric fields are unchanged.  Because the
inputs of the detectors are untouched, an immediate second call over the
unchanged history reports the same issues again, so repeated polling inflates
the two counters. -/
theorem check_stuck_state_congr (m1 m2 : SelfMonitor) (now : Nat)
    (h : m1.execution_history = m2.execution_history) :
    check_stuck_state m1 now = check_stuck_state m2 now := by
  unfold check_stuck_state
  rw [h]

theorem check_failure_rate_congr (m1 m2 : SelfMonitor)
    (ht : m1.health_metrics.total_steps = m2.health_metrics.total_steps)
    (hf : m1.health_metrics.failed_steps = m2.health_metrics.failed_steps) :
    check_failure_rate m1 = check_failure_rate m2 := by
  unfold check_failure_rate
  rw [ht, hf]

theorem check_timeouts_congr (m1 m2 : SelfMonitor)
    (h : m1.execution_history = m2.execution_history) :
    check_timeouts m1 = check_timeouts m2 := by
  unfold check_timeouts
  rw [h]

theorem check_excessive_retries_congr (m1 m2 : SelfMonitor)
    (h : m1.execution_history = m2.execution_history) :
    check_excessive_retries m1 = check_excessive_retries m2 := by
  unfold check_excessive_retries
  rw [h]

theorem check_stuck_state_kind (m : SelfMonitor) (now : Nat) (i : HealthIssue)
    (h : check_stuck_state m now = some i) :
    i.isStuck = true ∧ i.isLoop = false := by
  unfold check_stuck_state at h
  dsimp only at h
  repeat' split at h
  all_goals first
    | (cases h; exact ⟨rfl, rfl⟩)
    | simp at h

theorem check_failure_rate_kind (m : SelfMonitor) (i : HealthIssue)
    (h : check_failure_rate m = some i) :
    i.isStuck = false ∧ i.isLoop = false := by
  unfold check_failure_rate at h
  dsimp only at h
  repeat' split at h
  all_goals first
    | (cases h; exact ⟨rfl, rfl⟩)
    | simp at h

theorem detect_loop_kind (d : LoopDetector) (i : HealthIssue)
    (h : d.detect_loop = some i) :
    i.isStuck = false ∧ i.isLoop = true := by
  unfold LoopDetector.detect_loop at h
  dsimp only at h
  split at h
  next ic heq =>
    cases h
    repeat' split at heq
    all_goals first
      | (cases heq; exact ⟨rfl, rfl⟩)
      | simp at heq
  next heq =>
    repeat' split at h
    all_goals first
      | (cases h; exact ⟨rfl, rfl⟩)
      | simp at h

theorem check_health_issues_congr (m1 m2 : SelfMonitor) (now : Nat)
    (hh : m1.execution_history = m2.execution_history)
    (hl : m1.loop_detector = m2.loop_detector)
    (ht : m1.health_metrics.total_steps = m2.health_metrics.total_steps)
    (hf : m1.health_metrics.failed_steps = m2.health_metrics.failed_steps) :
    (m1.check_health now).1 = (m2.check_health now).1 := by
  unfold SelfMonitor.check_health
  rw [check_stuck_state_congr m1 m2 now hh, check_failure_rate_congr m1 m2 ht hf,
    check_timeouts_congr m1 m2 hh, check_excessive_retries_congr m1 m2 hh, hl]
  cases check_stuck_state m2 now <;> cases check_failure_rate m2 <;>
    cases m2.loop_detector.detect_loop <;> rfl

theorem check_health_frame (m : SelfMonitor) (now : Nat) :
    ((m.check_health now).2.execution_history = m.execution_history)
    ∧ (m.check_health now).2.loop_detector = m.loop_detector
    ∧ (m.check_health now).2.health_metrics.total_steps =
        m.health_metrics.total_steps
    ∧ (m.check_health now).2.health_metrics.successful_steps =
        m.health_metrics.successful_steps
    ∧ (m.check_health now).2.health_metrics.failed_steps =
        m.health_metrics.failed_steps
    ∧ (m.check_health now).2.health_metrics.average_step_duration =
        m.health_metrics.average_step_duration
    ∧ (m.check_health now).2.health_metrics.stuck_count =
        m.health_metrics.stuck_count +
          (if (m.check_health now).1.any HealthIssue.isStuck then 1 else 0)
    ∧ (m.check_health now).2.health_metrics.loop_count =
        m.health_metrics.loop_count +
          (if (m.check_health now).1.any HealthIssue.isLoop then 1 else 0)
    ∧ ((m.check_health now).2.check_health now).1 = (m.check_health now).1 := by
  have hTS := check_timeouts_no_stuck_loop m
  have hanyS : (check_timeouts m ++ check_excessive_retries m).any
      HealthIssue.isStuck = false := by
    rw [List.any_eq_false]
    intro x hx
    rcases List.mem_append.mp hx with h | h
    · simp [(hTS.1 x h).1]
    · simp [(hTS.2 x h).1]
  have hanyL : (check_timeouts m ++ check_excessive_retries m).any
      HealthIssue.isLoop = false := by
    rw [List.any_eq_false]
    intro x hx
    rcases List.mem_append.mp hx with h | h
    · simp [(hTS.1 x h).2]
    · simp [(hTS.2 x h).2]
  have frame : ((m.check_health now).2.execution_history = m.execution_history)
      ∧ (m.check_health now).2.loop_detector = m.loop_detector
      ∧ (m.check_health now).2.health_metrics.total_steps =
          m.health_metrics.total_steps
      ∧ (m.check_health now).2.health_metrics.successful_steps =
          m.health_metrics.successful_steps
      ∧ (m.check_health now).2.health_metrics.failed_steps =
          m.health_metrics.failed_steps
      ∧ (m.check_health now).2.health_metrics.average_step_duration =
          m.health_metrics.average_step_duration
      ∧ (m.check_health now).2.health_metrics.stuck_count =
          m.health_metrics.stuck_count +
            (if (m.check_health now).1.any HealthIssue.isStuck then 1 else 0)
      ∧ (m.check_health now).2.health_metrics.loop_count =
          m.health_metrics.loop_count +
            (if (m.check_health now).1.any HealthIssue.isLoop then 1 else 0) := by
    unfold SelfMonitor.check_health
    cases hst : check_stuck_state m now <;>
      cases hfr : check_failure_rate m <;>
        cases hlp : m.loop_detector.detect_loop
    case none.none.none =>
      simp [List.any_append, hanyS, hanyL]
    case none.none.some l =>
      simp [List.any_append, hanyS, hanyL,
        (detect_loop_kind m.loop_detector l hlp).1,
        (detect_loop_kind m.loop_detector l hlp).2]
    case none.some.none f =>
      simp [List.any_append, hanyS, hanyL,
        (check_failure_rate_kind m f hfr).1,
        (check_failure_rate_kind m f hfr).2]
    case none.some.some f l =>
      simp [List.any_append, hanyS, hanyL,
        (check_failure_rate_kind m f hfr).1,
        (check_failure_rate_kind m f hfr).2,
        (detect_loop_kind m.loop_detector l hlp).1,
        (detect_loop_kind m.loop_detector l hlp).2]
    case some.none.none s =>
      simp [List.any_append, hanyS, hanyL,
        (check_stuck_state_kind m now s hst).1,
        (check_stuck_state_kind m now s hst).2]
    case some.none.some s l =>
      simp [List.any_append, hanyS, hanyL,
        (check_stuck_state_kind m now s hst).1,
        (check_stuck_state_kind m now s hst).2,
        (detect_loop_kind m.loop_detector l hlp).1,
        (detect_loop_kind m.loop_detector l hlp).2]
    case some.some.none s f =>
      simp [List.any_append, hanyS, hanyL,
        (check_stuck_state_kind m now s hst).1,
        (check_stuck_state_kind m now s hst).2,
        (check_failure_rate_kind m f hfr).1,
        (check_failure_rate_kind m f hfr).2]
    case some.some.some s f l =>
      simp [List.any_append, hanyS, hanyL,
        (check_stuck_state_kind m now s hst).1,
        (check_stuck_state_kind m now s hst).2,
        (check_failure_rate_kind m f hfr).1,
        (check_failure_rate_kind m f hfr).2,
        (detect_loop_kind m.loop_detector l hlp).1,
        (detect_loop_kind m.loop_detector l hlp).2]
  obtain ⟨h1, h2, h3, h4, h5, h6, h7, h8⟩ := frame
  exact ⟨h1, h2, h3, h4, h5, h6, h7, h8,
    check_health_issues_congr _ m now h1 h2 h3 h5⟩

/-! ## Autonomous step loop (autonomous.rs)

The decision capability (`decide_next_step`, i.e. the LLM call plus JSON
parsing) is an external dependency of the loop: it is passed in as a function
`decideNext : AgentContext → Except String AgentAction`, failure standing for
a generation error or an unparsable decision.  Tool `args`
(`serde_json::Value`) are carried as opaque strings; a tool capability is its
name together with an `execute` function.  The optional event sink is
modelled by collecting every event sent into a list. -/

structure VerifiedInfo : Type where
  content : String
  source : String
  relevance : String
  deriving Repr, DecidableEq

structure AgentContext : Type where
  task : String
  gathered_info : List VerifiedInfo
  history : List String
  deriving Repr, DecidableEq

inductive AgentEvent : Type where
  | step (step : Nat) (max_steps : Nat)
  | thought (content : String)
  | toolCall (tool : String) (args : String)
  | toolOutput (output : String)
  | error (error : String)
  | done
  deriving Repr, DecidableEq

inductive AgentAction : Type where
  | useTool (tool : String) (args : String) (reason : String)
  | done
  deriving Repr, DecidableEq

/-- A registered tool: its name and its `execute` capability. -/
structure ToolCapability : Type where
  tname : String
  execute : String → Except String String

/-- `ToolRegistry::get` (`self.tools.get(name)`), the registry being the
name-keyed map of registered tools. -/
def registryGet (tools : List ToolCapability) (name : String) :
    Option ToolCapability :=
  tools.find? (fun t => t.tname == name)

/-- `format!("Action: UseTool {} (Reason: {})", tool, reason)` -/
def actionLine (tool reason : String) : String :=
  "Action: UseTool " ++ (tool ++ (" (Reason: " ++ (reason ++ ")")))

/-- `format!("Decided to use tool '{}' because: {}", tool, reason)` -/
def thoughtMsg (tool reason : String) : String :=
  "Decided to use tool \x27" ++ (tool ++ ("\x27 because: " ++ reason))

/-- `format!("Error: Tool '{}' not found", tool)` -/
def notFoundLine (tool : String) : String :=
  "Error: Tool \x27" ++ (tool ++ "\x27 not found")

/-- `format!("Output: {}", output.chars().take(500).collect::<String>())` -/
def outputLine (output : String) : String :=
  "Output: " ++ output.take 500

/-- `format!("Error: {}", e)` -/
def errLine (e : String) : String :=
  "Error: " ++ e

/-- `format!("Tool: {} Args: {}", tool, args)` -/
def sourceNote (tool args : String) : String :=
  "Tool: " ++ (tool ++ (" Args: " ++ args))

/-- The body of `AutonomousAgent::run`'s `for step in 0..max_steps` loop,
structurally recursive on the remaining iteration count (the running index is
`max_steps - remaining`). -/
def runLoop (tools : List ToolCapability)
    (decideNext : AgentContext → Except String AgentAction) (max_steps : Nat) :
    Nat → AgentContext → List AgentEvent →
      Except String (AgentContext × List AgentEvent)
  | 0, ctx, events => .ok (ctx, events)
  | remaining + 1, ctx, events =>
    let step := max_steps - (remaining + 1)
    let events := events ++ [.step (step + 1) max_steps]
    match decideNext ctx with
    | .error e => .error e
    | .ok (.useTool tool args reason) =>
      let ctx := { ctx with history := ctx.history ++ [actionLine tool reason] }
      let events := events ++
        [.thought (thoughtMsg tool reason), .toolCall tool args]
      match registryGet tools tool with
      | some tool_impl =>
        match tool_impl.execute args with
        | .ok output =>
          let events := events ++ [.toolOutput (output.take 1000)]
          let ctx := { ctx with history := ctx.history ++ [outputLine output] }
          let ctx :=
            if tool == "search" || tool == "view_file" then
              { ctx with gathered_info := ctx.gathered_info ++
                  [⟨output, sourceNote tool args, reason⟩] }
            else ctx
          runLoop tools decideNext max_steps remaining ctx events
        | .error e =>
          let events := events ++ [.error e]
          let ctx := { ctx with history := ctx.history ++ [errLine e] }
          runLoop tools decideNext max_steps remaining ctx events
      | none =>
        let ctx := { ctx with history := ctx.history ++ [notFoundLine tool] }
        runLoop tools decideNext max_steps remaining ctx events
    | .ok .done => .ok (ctx, events ++ [.done])

/-- `AutonomousAgent::run`: 15 iterations starting from an empty context. -/
def AutonomousAgent.run (tools : List ToolCapability)
    (decideNext : AgentContext → Except String AgentAction) (task : String) :
    Except String (AgentContext × List AgentEvent) :=
  runLoop tools decideNext 15 15 ⟨task, [], []⟩ []

/-! ## Claim C6: immediate completion -/

/-- **C6.**  With a decision capability that always answers `done`, the run
terminates after exactly one iteration — the event trace is `Step 1/15`
followed by `Done` — and returns the untouched context (empty
`gathered_info`, empty history) without error. -/
theorem run_done_once (tools : List ToolCapability)
    (decideNext : AgentContext → Except String AgentAction) (task : String)
    (h : ∀ ctx, decideNext ctx = .ok .done) :
    AutonomousAgent.run tools decideNext task =
      .ok (⟨task, [], []⟩, [.step 1 15, .done]) := by
  unfold AutonomousAgent.run
  rw [runLoop, h]
  rfl

/-- **C6 witness.** -/
theorem run_done_once_witness :
    AutonomousAgent.run [] (fun _ => .ok .done) "t" =
      .ok (⟨"t", [], []⟩, [.step 1 15, .done]) :=
  run_done_once [] (fun _ => .ok .done) "t" (fun _ => rfl)

/-! ## Claim C7: nonexistent tool for the whole run -/

/-- Number of `Step` events in a trace (= number of loop iterations begun). -/
def countSteps (events : List AgentEvent) : Nat :=
  events.countP (fun e => match e with | .step _ _ => true | _ => false)

/-- A history line reading `Error: Tool '…' not found`. -/
def isNotFoundLine (line : String) : Bool :=
  "Error: Tool \x27".data.isPrefixOf line.data

theorem isNotFoundLine_notFound (t : String) :
    isNotFoundLine (notFoundLine t) = true := by
  unfold isNotFoundLine notFoundLine
  rw [show ("Error: Tool \x27" ++ (t ++ "\x27 not found")).data =
      "Error: Tool \x27".data ++ (t ++ "\x27 not found").data from rfl,
    List.isPrefixOf_iff_prefix]
  exact List.prefix_append _ _

theorem isNotFoundLine_action (t r : String) :
    isNotFoundLine (actionLine t r) = false := rfl

/-- One not-found iteration of the loop: decision `useTool`, lookup fails,
two history lines, three events, recursion. -/
theorem runLoop_not_found
    (tools : List ToolCapability)
    (decideNext : AgentContext → Except String AgentAction)
    (hdec : ∀ ctx, ∃ t a r, decideNext ctx = .ok (.useTool t a r) ∧
      registryGet tools t = none) :
    ∀ (remaining : Nat) (ctx : AgentContext) (events : List AgentEvent),
      ∃ (ts : List (String × String)) (evs : List AgentEvent),
        ts.length = remaining
        ∧ runLoop tools decideNext 15 remaining ctx events =
            .ok ({ ctx with history := ctx.history ++
                    ts.flatMap (fun p => [actionLine p.1 p.2, notFoundLine p.1]) },
                  events ++ evs)
        ∧ countSteps (events ++ evs) = countSteps events + remaining := by
  intro remaining
  induction remaining with
  | zero =>
    intro ctx events
    exact ⟨[], [], rfl, by rw [runLoop]; simp, by simp⟩
  | succ n ih =>
    intro ctx events
    obtain ⟨t, a, r, hd, hnf⟩ := hdec ctx
    obtain ⟨ts, evs, hlen, hrun, hcount⟩ := ih
      { ctx with history := (ctx.history ++ [actionLine t r]) ++ [notFoundLine t] }
      ((events ++ [.step (15 - (n + 1) + 1) 15]) ++
        [.thought (thoughtMsg t r), .toolCall t a])
    refine ⟨(t, r) :: ts, [.step (15 - (n + 1) + 1) 15,
      .thought (thoughtMsg t r), .toolCall t a] ++ evs, by simp [hlen], ?_, ?_⟩
    · rw [runLoop, hd]
      dsimp only
      rw [hnf]
      dsimp only
      rw [hrun]
      simp [List.append_assoc]
    · simp only [countSteps, List.countP_append, List.countP_cons,
        List.countP_nil] at hcount ⊢
      simp at hcount ⊢
      omega

theorem countP_flatMap_notFound (ts : List (String × String)) :
    (ts.flatMap fun p => [actionLine p.1 p.2, notFoundLine p.1]).countP
      isNotFoundLine = ts.length := by
  induction ts with
  | nil => rfl
  | cons p ps ih =>
    simp only [List.flatMap_cons, List.countP_append, List.countP_cons,
      List.countP_nil, List.length_cons, ih, isNotFoundLine_notFound,
      isNotFoundLine_action]
    simp
    omega

theorem length_flatMap_notFound (ts : List (String × String)) :
    (ts.flatMap fun p => [actionLine p.1 p.2, notFoundLine p.1]).length =
      2 * ts.length := by
  induction ts with
  | nil => rfl
  | cons p ps ih =>
    simp only [List.flatMap_cons, List.length_append, List.length_cons,
      List.length_nil, ih]
    omega

/-- **C7.**  With a decision capability that always requests a tool absent
from the registry, the run uses the full 15-iteration cap (15 `Step` events),
records exactly 15 `Error: Tool '…' not found` history lines (its 30-line
history alternating action and error lines), gathers nothing, and returns the
context without error. -/
theorem run_tool_not_found (tools : List ToolCapability)
    (decideNext : AgentContext → Except String AgentAction) (task : String)
    (hdec : ∀ ctx, ∃ t a r, decideNext ctx = .ok (.useTool t a r) ∧
      registryGet tools t = none) :
    ∃ (ctx' : AgentContext) (evs : List AgentEvent),
      AutonomousAgent.run tools decideNext task = .ok (ctx', evs)
      ∧ countSteps evs = 15
      ∧ ctx'.history.countP isNotFoundLine = 15
      ∧ ctx'.history.length = 30
      ∧ ctx'.gathered_info = []
      ∧ ctx'.task = task := by
  obtain ⟨ts, evs, hlen, hrun, hcount⟩ :=
    runLoop_not_found tools decideNext hdec 15 ⟨task, [], []⟩ []
  rw [List.nil_append] at hrun hcount
  refine ⟨_, _, hrun, by simpa using hcount, ?_, ?_, rfl, rfl⟩
  · show (ts.flatMap fun p => [actionLine p.1 p.2, notFoundLine p.1]).countP
      isNotFoundLine = 15
    rw [countP_flatMap_notFound, hlen]
  · show (ts.flatMap fun p => [actionLine p.1 p.2, notFoundLine p.1]).length = 30
    rw [length_flatMap_notFound, hlen]

/-- **C7 witness.** -/
theorem run_tool_not_found_witness :
    ∃ (ctx' : AgentContext) (evs : List AgentEvent),
      AutonomousAgent.run [] (fun _ => .ok (.useTool "missing" "{}" "why")) "t" =
          .ok (ctx', evs)
        ∧ countSteps evs = 15
        ∧ ctx'.history.countP isNotFoundLine = 15
        ∧ ctx'.history.length = 30
        ∧ ctx'.gathered_info = []
        ∧ ctx'.task = "t" :=
  run_tool_not_found [] (fun _ => .ok (.useTool "missing" "{}" "why")) "t"
    (fun _ => ⟨"missing", "{}", "why", rfl, rfl⟩)

/-! ## Worker fan-out (orchestrator.rs)

The worker-side data model (`SearchQuery`, `WorkerPlan`, `SearchPlan`,
`ContextChunk`, `WorkerResult`) is declared in `miow-agent`'s `router.rs` and
`workers.rs`, which are not part of the provided sources; the shapes below
follow the spec's data model (§3) and the fields the orchestrator reads.
`confidence: f32` is modelled as `Float`. -/

/-- Modelled from the spec: a worker's search query (`router.rs` is not in
the sources; fields as copied by `execute_workers_sequentially`). -/
structure SearchQuery : Type where
  query : String
  kind : String
  target_paths : List String
  deriving Repr, DecidableEq

/-- Modelled from the spec: a worker's assignment (`router.rs` is not in the
sources; `worker_id` and `queries` as read by the orchestrator). -/
structure WorkerPlan : Type where
  worker_id : String
  queries : List SearchQuery
  deriving Repr, DecidableEq

/-- Modelled from the spec: the router's plan — named workers plus the
advisory `execution_plan` ordering of worker ids. -/
structure SearchPlan : Type where
  workers : List WorkerPlan
  execution_plan : List String
  deriving Repr, DecidableEq

/-- Modelled from the spec: one content chunk of a worker result (fields as
read by `merge_contexts_rule_based`). -/
structure ContextChunk : Type where
  id : String
  kind : String
  content : String
  file_path : String
  deriving Repr, DecidableEq

/-- Modelled from the spec: `WorkerResult { worker_id, chunks, confidence
(0.0–1.0), summary }`. -/
structure WorkerResult : Type where
  worker_id : String
  chunks : List ContextChunk
  confidence : Float
  summary : String
  deriving Repr

/-- How one spawned worker task ends: `Ok(result)` from the worker agent, a
worker-level error (logged, converted to `None`), or a panic-equivalent
(`JoinError` from the task)  — the worker agent itself is an external
capability, so the outcome is a parameter. -/
inductive WorkerOutcome : Type where
  | ok (result : WorkerResult)
  | err (e : String)
  | panicked

/-- The task-spawning loop of `execute_workers_sequentially`: one task per
`execution_plan` entry that names a known worker, in plan order. -/
def scheduledWorkers (plan : SearchPlan) : List WorkerPlan :=
  plan.execution_plan.filterMap (fun worker_id =>
    plan.workers.find? (fun w => w.worker_id == worker_id))

/-- The collection loop: `if let Ok(Some((_, worker_result))) = result` —
worker errors and panics alike contribute no result. -/
def collectOutcome : WorkerOutcome → Option WorkerResult
  | .ok r => some r
  | .err _ => none
  | .panicked => none

/-- `Orchestrator::execute_workers_sequentially`: spawn tasks in plan order,
join all (order-preserving), keep the successful results. -/
def execute_workers_sequentially (outcome : WorkerPlan → WorkerOutcome)
    (plan : SearchPlan) : List WorkerResult :=
  (scheduledWorkers plan).filterMap (fun wp => collectOutcome (outcome wp))

/-! ## Claim C8: worker failures are isolated -/

def wpA : WorkerPlan := ⟨"alpha", [⟨"q1", "component", []⟩]⟩

def wpB : WorkerPlan := ⟨"beta", [⟨"q2", "type", []⟩]⟩

def wpC : WorkerPlan := ⟨"gamma", [⟨"q3", "schema", []⟩]⟩

def threeWorkerPlan : SearchPlan :=
  ⟨[wpA, wpB, wpC], ["alpha", "beta", "gamma"]⟩

def resultA : WorkerResult := ⟨"alpha", [⟨"A1", "component", "ca", "fa"⟩], 0.9, "sa"⟩

def resultB : WorkerResult := ⟨"beta", [⟨"B1", "type", "cb", "fb"⟩], 0.8, "sb"⟩

def resultC : WorkerResult := ⟨"gamma", [⟨"C1", "schema", "cc", "fc"⟩], 0.7, "sc"⟩

/-- All three workers succeed. -/
def outcomesAllOk : WorkerPlan → WorkerOutcome := fun w =>
  if w = wpA then .ok resultA
  else if w = wpB then .ok resultB
  else .ok resultC

/-- The middle worker throws; the others succeed. -/
def outcomesMiddleFails : WorkerPlan → WorkerOutcome := fun w =>
  if w = wpA then .ok resultA
  else if w = wpB then .err "worker beta failed"
  else .ok resultC

/-- **C8.**  A worker's failure (error or panic-equivalent) is caught at its
task boundary and becomes "no result for that worker": flipping exactly one
scheduled worker from success to failure removes exactly that worker's result
and leaves every sibling's result in place; when every worker fails the call
returns the empty result list rather than an error; with three workers of
which the middle one throws, exactly the two survivors' results come back. -/
theorem worker_failures_isolated :
    (∀ (plan : SearchPlan) (o1 o2 : WorkerPlan → WorkerOutcome)
        (w : WorkerPlan) (r : WorkerResult) (L1 L2 : List WorkerPlan),
      scheduledWorkers plan = L1 ++ w :: L2 →
      w ∉ L1 → w ∉ L2 →
      (∀ u, u ≠ w → o2 u = o1 u) →
      o1 w = .ok r →
      collectOutcome (o2 w) = none →
      execute_workers_sequentially o1 plan =
          L1.filterMap (fun wp => collectOutcome (o1 wp)) ++
            r :: L2.filterMap (fun wp => collectOutcome (o1 wp))
        ∧ execute_workers_sequentially o2 plan =
            L1.filterMap (fun wp => collectOutcome (o1 wp)) ++
              L2.filterMap (fun wp => collectOutcome (o1 wp)))
    ∧ (∀ (plan : SearchPlan) (o : WorkerPlan → WorkerOutcome),
        (∀ w ∈ scheduledWorkers plan, collectOutcome (o w) = none) →
        execute_workers_sequentially o plan = [])
    ∧ execute_workers_sequentially outcomesAllOk threeWorkerPlan =
        [resultA, resultB, resultC]
    ∧ execute_workers_sequentially outcomesMiddleFails threeWorkerPlan =
        [resultA, resultC] := by
  refine ⟨?_, ?_, rfl, rfl⟩
  · intro plan o1 o2 w r L1 L2 hsched hw1 hw2 hagree hok hfail
    unfold execute_workers_sequentially
    rw [hsched]
    rw [List.filterMap_append, List.filterMap_append]
    constructor
    · rw [List.filterMap_cons, hok]
      rfl
    · have e1 : List.filterMap (fun wp => collectOutcome (o2 wp)) L1 =
          List.filterMap (fun wp => collectOutcome (o1 wp)) L1 :=
        List.filterMap_congr (fun u hu => by
          rw [hagree u (fun he => hw1 (he ▸ hu))])
      have e2 : List.filterMap (fun wp => collectOutcome (o2 wp)) L2 =
          List.filterMap (fun wp => collectOutcome (o1 wp)) L2 :=
        List.filterMap_congr (fun u hu => by
          rw [hagree u (fun he => hw2 (he ▸ hu))])
      rw [List.filterMap_cons, hfail, e1, e2]
  · intro plan o h
    unfold execute_workers_sequentially
    exact List.filterMap_eq_nil_iff.mpr h

/-- **C8 witness.** -/
theorem worker_failures_isolated_witness :
    execute_workers_sequentially outcomesAllOk threeWorkerPlan =
        [wpA].filterMap (fun wp => collectOutcome (outcomesAllOk wp)) ++
          resultB :: [wpC].filterMap (fun wp => collectOutcome (outcomesAllOk wp))
      ∧ execute_workers_sequentially outcomesMiddleFails threeWorkerPlan =
          [wpA].filterMap (fun wp => collectOutcome (outcomesAllOk wp)) ++
            [wpC].filterMap (fun wp => collectOutcome (outcomesAllOk wp))
      ∧ execute_workers_sequentially (fun _ => .err "down") threeWorkerPlan = [] :=
  ⟨(worker_failures_isolated.1 threeWorkerPlan outcomesAllOk outcomesMiddleFails
      wpB resultB [wpA] [wpC] rfl (by decide) (by decide)
      (fun u hu => by
        by_cases h : u = wpA <;>
          simp [outcomesAllOk, outcomesMiddleFails, h, hu])
      rfl rfl).1,
    (worker_failures_isolated.1 threeWorkerPlan outcomesAllOk outcomesMiddleFails
      wpB resultB [wpA] [wpC] rfl (by decide) (by decide)
      (fun u hu => by
        by_cases h : u = wpA <;>
          simp [outcomesAllOk, outcomesMiddleFails, h, hu])
      rfl rfl).2,
    worker_failures_isolated.2.1 threeWorkerPlan (fun _ => .err "down")
      (fun w _ => rfl)⟩

/-! ## Context merging (orchestrator.rs, miow-llm) -/

/-- `miow-llm`'s `ContextItem` (`relevance_score: f32` as `Float`). -/
structure ContextItem : Type where
  name : String
  kind : String
  content : String
  file_path : String
  relevance_score : Float
  props : List String
  references : List String
  deriving Repr

/-- `miow-llm`'s `GatheredContext`. -/
structure GatheredContext : Type where
  components : List ContextItem
  helpers : List ContextItem
  types : List ContextItem
  design_tokens : List ContextItem
  constants : List ContextItem
  schemas : List ContextItem
  similar_implementations : List ContextItem
  deriving Repr

def emptyGathered : GatheredContext := ⟨[], [], [], [], [], [], []⟩

/-- Rust's `str::contains` (substring containment). -/
def strContains (s pat : String) : Bool :=
  decide (pat.data <:+: s.data)

/-- The `seen_names` set after seeding it with the base context's item names
(components, types, schemas, helpers, in source order); the `HashSet` is
modelled as a list used only through membership and insertion. -/
def baseNames (base_context : GatheredContext) : List String :=
  base_context.components.map ContextItem.name ++
    base_context.types.map ContextItem.name ++
    base_context.schemas.map ContextItem.name ++
    base_context.helpers.map ContextItem.name

/-- The `ContextItem` built for a fresh chunk: the owning worker's
`confidence` becomes the item's `relevance_score`. -/
def chunkItem (chunk : ContextChunk) (confidence : Float) : ContextItem :=
  ⟨chunk.id, chunk.kind, chunk.content, chunk.file_path, confidence, [], []⟩

/-- One chunk of the inner loop of `merge_contexts_rule_based`: skip if the
id was seen, else remember the id and push the item onto the bucket selected
by the chunk's `kind`. -/
def mergeChunkStep (confidence : Float)
    (acc : GatheredContext × List String) (chunk : ContextChunk) :
    GatheredContext × List String :=
  let (master, seen) := acc
  if seen.contains chunk.id then (master, seen)
  else
    let seen := chunk.id :: seen
    let item := chunkItem chunk confidence
    if strContains chunk.kind "component" || strContains chunk.kind "function" then
      ({ master with components := master.components ++ [item] }, seen)
    else if strContains chunk.kind "type" || strContains chunk.kind "interface" then
      ({ master with types := master.types ++ [item] }, seen)
    else if strContains chunk.kind "schema" || strContains chunk.kind "model" then
      ({ master with schemas := master.schemas ++ [item] }, seen)
    else
      ({ master with helpers := master.helpers ++ [item] }, seen)

/-- `Orchestrator::merge_contexts_rule_based`. -/
def merge_contexts_rule_based (worker_results : List WorkerResult)
    (base_context : GatheredContext) : GatheredContext :=
  (worker_results.foldl
    (fun acc worker_result =>
      worker_result.chunks.foldl (mergeChunkStep worker_result.confidence) acc)
    (base_context, baseNames base_context)).1

/-! ## Claim C9: bucketed, deduplicated merging -/

/-- The four category buckets. -/
inductive Bucket : Type where
  | componentLike
  | typeLike
  | schemaLike
  | other
  deriving Repr, DecidableEq

/-- The bucket the code's `kind` tests select. -/
def bucketOf (chunk : ContextChunk) : Bucket :=
  if strContains chunk.kind "component" || strContains chunk.kind "function" then
    .componentLike
  else if strContains chunk.kind "type" || strContains chunk.kind "interface" then
    .typeLike
  else if strContains chunk.kind "schema" || strContains chunk.kind "model" then
    .schemaLike
  else
    .other

/-- All worker chunks, flattened in worker order, each paired with its
owner's confidence. -/
def allChunks (worker_results : List WorkerResult) : List (ContextChunk × Float) :=
  worker_results.flatMap (fun wr => wr.chunks.map (fun c => (c, wr.confidence)))

/-- First-seen-wins global deduplication: keep a chunk iff its id is in
neither `seen` nor an earlier kept (or skipped) chunk. -/
def newChunks (seen : List String) :
    List (ContextChunk × Float) → List (ContextChunk × Float)
  | [] => []
  | (c, conf) :: rest =>
    if seen.contains c.id then newChunks seen rest
    else (c, conf) :: newChunks (c.id :: seen) rest

/-- The fresh items destined for one bucket. -/
def bucketItems (b : Bucket) (seen : List String)
    (chunks : List (ContextChunk × Float)) : List ContextItem :=
  ((newChunks seen chunks).filter (fun p => bucketOf p.1 == b)).map
    (fun p => chunkItem p.1 p.2)

theorem mergeChunkStep_seen (conf : Float) (gc : GatheredContext)
    (seen : List String) (c : ContextChunk)
    (h : seen.contains c.id = true) :
    mergeChunkStep conf (gc, seen) c = (gc, seen) := by
  have hmem : c.id ∈ seen := by simpa using h
  simp [mergeChunkStep, hmem]

theorem mergeChunkStep_fresh (conf : Float) (gc : GatheredContext)
    (seen : List String) (c : ContextChunk)
    (h : seen.contains c.id = false) :
    mergeChunkStep conf (gc, seen) c =
      (match bucketOf c with
        | .componentLike =>
          { gc with components := gc.components ++ [chunkItem c conf] }
        | .typeLike => { gc with types := gc.types ++ [chunkItem c conf] }
        | .schemaLike => { gc with schemas := gc.schemas ++ [chunkItem c conf] }
        | .other => { gc with helpers := gc.helpers ++ [chunkItem c conf] },
        c.id :: seen) := by
  have hmem : c.id ∉ seen := by simpa using h
  unfold mergeChunkStep bucketOf
  by_cases h1 : (strContains c.kind "component" || strContains c.kind "function") = true
  · simp [hmem, h1]
  · by_cases h2 : (strContains c.kind "type" || strContains c.kind "interface") = true
    · simp [hmem, h1, h2]
    · by_cases h3 : (strContains c.kind "schema" || strContains c.kind "model") = true
      · simp [hmem, h1, h2, h3]
      · simp [hmem, h1, h2, h3]

theorem foldl_mergeChunkStep_spec (chunks : List (ContextChunk × Float)) :
    ∀ (gc : GatheredContext) (seen : List String),
      (chunks.foldl (fun acc p => mergeChunkStep p.2 acc p.1) (gc, seen)) =
        ({ gc with
            components := gc.components ++ bucketItems .componentLike seen chunks
            types := gc.types ++ bucketItems .typeLike seen chunks
            schemas := gc.schemas ++ bucketItems .schemaLike seen chunks
            helpers := gc.helpers ++ bucketItems .other seen chunks },
          (newChunks seen chunks).reverse.map (fun p => p.1.id) ++ seen) := by
  induction chunks with
  | nil =>
    intro gc seen
    simp [bucketItems, newChunks]
  | cons p rest ih =>
    intro gc seen
    obtain ⟨c, conf⟩ := p
    simp only [List.foldl_cons]
    by_cases hseen : seen.contains c.id
    · rw [mergeChunkStep_seen conf gc seen c hseen, ih gc seen]
      have hnew : newChunks seen ((c, conf) :: rest) = newChunks seen rest := by
        rw [newChunks, if_pos hseen]
      simp only [bucketItems, hnew]
    · rw [mergeChunkStep_fresh conf gc seen c
        (by simpa using Bool.of_not_eq_true hseen)]
      have hnew : newChunks seen ((c, conf) :: rest) =
          (c, conf) :: newChunks (c.id :: seen) rest := by
        rw [newChunks, if_neg hseen]
      cases hb : bucketOf c <;>
        (rw [ih]
         simp only [bucketItems, hnew, List.filter_cons, hb,
           List.reverse_cons, List.map_append]
         simp [List.append_assoc])

theorem merge_foldl_flatten (worker_results : List WorkerResult) :
    ∀ acc : GatheredContext × List String,
      worker_results.foldl
          (fun acc wr => wr.chunks.foldl (mergeChunkStep wr.confidence) acc) acc =
        (allChunks worker_results).foldl
          (fun acc p => mergeChunkStep p.2 acc p.1) acc := by
  induction worker_results with
  | nil => intro acc; rfl
  | cons wr rest ih =>
    intro acc
    rw [List.foldl_cons, ih]
    simp only [allChunks, List.flatMap_cons, List.foldl_append, List.foldl_map]

/-- **C9 (amended).**  Rule-based aggregation appends each first-seen worker
chunk — keyed by chunk id, deduplicated globally across the four buckets and
against the base context's item names — to the bucket selected by its kind
(component-like, type-like, schema-like, other), each new item carrying the
owning worker's confidence as its relevance score; the other context fields
are untouched. -/
theorem merge_contexts_rule_based_spec (worker_results : List WorkerResult)
    (base_context : GatheredContext) :
    merge_contexts_rule_based worker_results base_context =
      { base_context with
        components := base_context.components ++
          bucketItems .componentLike (baseNames base_context)
            (allChunks worker_results)
        types := base_context.types ++
          bucketItems .typeLike (baseNames base_context)
            (allChunks worker_results)
        schemas := base_context.schemas ++
          bucketItems .schemaLike (baseNames base_context)
            (allChunks worker_results)
        helpers := base_context.helpers ++
          bucketItems .other (baseNames base_context)
            (allChunks worker_results) } := by
  unfold merge_contexts_rule_based
  rw [merge_foldl_flatten, foldl_mergeChunkStep_spec]

/-- The claim's wording: duplicate identities resolved first-seen-wins *per
bucket* — each bucket deduplicates only against its own names.  (Comparison
definition for claim C9.) -/
def merge_contexts_per_bucket (worker_results : List WorkerResult)
    (base_context : GatheredContext) : GatheredContext :=
  { base_context with
    components := base_context.components ++
      bucketItems .componentLike (base_context.components.map ContextItem.name)
        ((allChunks worker_results).filter (fun p => bucketOf p.1 == .componentLike))
    types := base_context.types ++
      bucketItems .typeLike (base_context.types.map ContextItem.name)
        ((allChunks worker_results).filter (fun p => bucketOf p.1 == .typeLike))
    schemas := base_context.schemas ++
      bucketItems .schemaLike (base_context.schemas.map ContextItem.name)
        ((allChunks worker_results).filter (fun p => bucketOf p.1 == .schemaLike))
    helpers := base_context.helpers ++
      bucketItems .other (base_context.helpers.map ContextItem.name)
        ((allChunks worker_results).filter (fun p => bucketOf p.1 == .other)) }

/-- One worker offering the same id `"X"` first as a component-like chunk and
then as a type-like chunk. -/
def duplicateIdWorker : WorkerResult :=
  ⟨"w", [⟨"X", "component", "c1", "f1"⟩, ⟨"X", "type", "c2", "f2"⟩], 0.5, "s"⟩

/-- **C9 counterexample.**  Deduplication is global, not per bucket: with two
chunks sharing id `"X"` — a component-like one then a type-like one — the
code leaves the `types` bucket empty (the id was already seen in the
components bucket), while the claim's per-bucket reading would put `"X"` into
`types` as well. -/
theorem merge_dedup_not_per_bucket :
    (merge_contexts_rule_based [duplicateIdWorker] emptyGathered).types = []
    ∧ (merge_contexts_per_bucket [duplicateIdWorker] emptyGathered).types =
        [⟨"X", "type", "c2", "f2", 0.5, [], []⟩]
    ∧ (merge_contexts_rule_based [duplicateIdWorker] emptyGathered).types ≠
        (merge_contexts_per_bucket [duplicateIdWorker] emptyGathered).types := by
  refine ⟨rfl, rfl, ?_⟩
  intro h
  have : (0 : Nat) = 1 := congrArg List.length h
  exact absurd this (by decide)

/-! ## Claim C1: cycle validation

The correctness proof for `validate_plan` follows the classical three-colour
depth-first-search argument: an id absent from the visited map is unvisited
(white), an id mapped to `true` is on the current recursion stack (grey), an
id mapped to `false` is fully resolved (black). -/

theorem VMap.lookup_insert (v : VMap) (k k' : String) (b : Bool) :
    (v.insert k b).lookup k' = if k' = k then some b else v.lookup k' := by
  by_cases h : k' = k
  · rw [if_pos h, h, VMap.lookup_insert_self]
  · rw [if_neg h, VMap.lookup_insert_ne v k k' b h]

/-- Basic bookkeeping of one `circGo` call: keys are never removed, black
ids stay black, and a `false`-returning call leaves the grey set exactly as
it found it. -/
theorem circGo_preserves (all : List PlanStep) :
    ∀ (fuel : Nat) (task : CircTask) (v : VMap) (b : Bool) (v' : VMap),
      circGo all fuel task v = some (b, v') →
      ((∀ k, (VMap.lookup v k).isSome → (VMap.lookup v' k).isSome)
        ∧ (∀ k, VMap.lookup v k = some false → VMap.lookup v' k = some false)
        ∧ (b = false →
            ∀ k, (VMap.lookup v' k = some true ↔ VMap.lookup v k = some true))) := by
  intro fuel
  induction fuel with
  | zero =>
    intro task v b v' h
    rw [circGo] at h
    exact absurd h (by simp)
  | succ f ih =>
    intro task v b v' h
    match task with
    | .step s =>
      rw [circGo] at h
      rcases hl : VMap.lookup v s.id with _ | flag
      · rw [hl] at h
        dsimp only at h
        have htrue1 : ∀ k, VMap.lookup (v.insert s.id true) k = some true ↔
            (k = s.id ∨ VMap.lookup v k = some true) := by
          intro k
          rw [VMap.lookup_insert]
          by_cases hk : k = s.id
          · simp [hk]
          · simp only [if_neg hk, iff_iff_implies_and_implies]
            constructor
            · exact fun hh => Or.inr hh
            · rintro (hh | hh)
              · exact absurd hh hk
              · exact hh
        rcases hrec : circGo all f (.deps s.dependencies) (v.insert s.id true)
          with _ | ⟨bb, v2⟩
        · rw [hrec] at h; exact absurd h (by simp)
        · rw [hrec] at h
          obtain ⟨ihk, ihb, ihtrue⟩ := ih _ _ _ _ hrec
          cases bb
          · -- the dependency scan came back clean: mark `s.id` black
            simp only [Option.some.injEq, Prod.mk.injEq] at h
            obtain ⟨hb, hv⟩ := h
            subst hb hv
            refine ⟨?_, ?_, ?_⟩
            · intro k hk
              rw [VMap.lookup_insert]
              by_cases he : k = s.id
              · rw [if_pos he]; rfl
              · rw [if_neg he]
                refine ihk k ?_
                rw [VMap.lookup_insert]
                rw [if_neg he]
                exact hk
            · intro k hk
              have hne : k ≠ s.id := fun he => by
                rw [he, hl] at hk; exact Option.noConfusion hk
              rw [VMap.lookup_insert, if_neg hne]
              refine ihb k ?_
              rw [VMap.lookup_insert, if_neg hne]
              exact hk
            · intro _ k
              rw [VMap.lookup_insert]
              by_cases he : k = s.id
              · rw [if_pos he, he]
                constructor
                · intro hh; exact absurd hh (by simp)
                · intro hh; rw [hl] at hh; exact absurd hh (by simp)
              · rw [if_neg he]
                rw [ihtrue rfl k, htrue1 k]
                constructor
                · rintro (hh | hh)
                  · exact absurd hh he
                  · exact hh
                · exact fun hh => Or.inr hh
          · -- a cycle was reported: the map is returned as-is
            simp only [Option.some.injEq, Prod.mk.injEq] at h
            obtain ⟨hb, hv⟩ := h
            subst hb hv
            refine ⟨?_, ?_, ?_⟩
            · intro k hk
              refine ihk k ?_
              rw [VMap.lookup_insert]
              by_cases he : k = s.id
              · rw [if_pos he]; rfl
              · rw [if_neg he]; exact hk
            · intro k hk
              have hne : k ≠ s.id := fun he => by
                rw [he, hl] at hk; exact Option.noConfusion hk
              refine ihb k ?_
              rw [VMap.lookup_insert, if_neg hne]
              exact hk
            · intro habs; exact absurd habs (by simp)
      · rw [hl] at h
        dsimp only at h
        simp only [Option.some.injEq, Prod.mk.injEq] at h
        obtain ⟨hb, hv⟩ := h
        subst hb hv
        exact ⟨fun k hk => hk, fun k hk => hk, fun _ k => Iff.rfl⟩
    | .deps [] =>
      rw [circGo] at h
      simp only [Option.some.injEq, Prod.mk.injEq] at h
      obtain ⟨hb, hv⟩ := h
      subst hb hv
      exact ⟨fun k hk => hk, fun k hk => hk, fun _ k => Iff.rfl⟩
    | .deps (d :: ds) =>
      rw [circGo] at h
      rcases hf : List.find? (fun s => s.id == d) all with _ | depStep
      · rw [hf] at h
        dsimp only at h
        exact ih _ _ _ _ h
      · rw [hf] at h
        dsimp only at h
        rcases hrec : circGo all f (.step depStep) v with _ | ⟨bb, v2⟩
        · rw [hrec] at h; exact absurd h (by simp)
        · rw [hrec] at h
          obtain ⟨ihk, ihb, ihtrue⟩ := ih _ _ _ _ hrec
          cases bb
          · obtain ⟨ihk2, ihb2, ihtrue2⟩ := ih _ _ _ _ h
            exact ⟨fun k hk => ihk2 k (ihk k hk),
              fun k hk => ihb2 k (ihb k hk),
              fun hb k => ((ihtrue2 hb k).trans (ihtrue rfl k))⟩
          · simp only [Option.some.injEq, Prod.mk.injEq] at h
            obtain ⟨hb, hv⟩ := h
            subst hb hv
            exact ⟨ihk, ihb, fun habs => absurd habs (by simp)⟩

/-- The termination potential: each still-unvisited plan id can cost at most
one stack frame plus one scan of a dependency list. -/
def remWeight (all : List PlanStep) (v : VMap) : Nat :=
  ((all.map PlanStep.id).dedup.filter
      (fun i => (VMap.lookup v i).isNone)).length * (maxDepsLen all + 2)

theorem deps_le_maxDepsLen (all : List PlanStep) (s : PlanStep)
    (hs : s ∈ all) : s.dependencies.length ≤ maxDepsLen all := by
  induction all with
  | nil => exact absurd hs (List.not_mem_nil s)
  | cons t rest ih =>
    rw [maxDepsLen, List.foldr_cons]
    rcases List.mem_cons.mp hs with he | hm
    · rw [he]; exact le_max_left _ _
    · exact le_trans (ih hm) (le_max_right _ _)

theorem remWeight_mono (all : List PlanStep) (v v' : VMap)
    (h : ∀ k, (VMap.lookup v k).isSome → (VMap.lookup v' k).isSome) :
    remWeight all v' ≤ remWeight all v := by
  unfold remWeight
  refine Nat.mul_le_mul_right _ ?_
  rw [← List.countP_eq_length_filter, ← List.countP_eq_length_filter]
  refine List.countP_mono_left ?_
  intro i _ hi
  rw [Option.isNone_iff_eq_none] at hi ⊢
  rcases hl : VMap.lookup v i with _ | b
  · rfl
  · exact absurd (h i (by rw [hl]; rfl)) (by rw [hi]; simp)

theorem remWeight_insert (all : List PlanStep) (v : VMap) (s : PlanStep)
    (b : Bool) (hs : s ∈ all) (hnone : VMap.lookup v s.id = none) :
    remWeight all (v.insert s.id b) + (maxDepsLen all + 2) ≤ remWeight all v := by
  unfold remWeight
  have hfilter : ((all.map PlanStep.id).dedup.filter
      (fun i => (VMap.lookup (v.insert s.id b) i).isNone)) =
      ((all.map PlanStep.id).dedup.filter
        (fun i => (VMap.lookup v i).isNone)).filter (fun i => i != s.id) := by
    rw [List.filter_filter]
    refine List.filter_congr ?_
    intro i _
    rw [VMap.lookup_insert]
    by_cases he : i = s.id
    · simp [he]
    · simp [he]
  have hmem : s.id ∈ ((all.map PlanStep.id).dedup.filter
      (fun i => (VMap.lookup v i).isNone)) := by
    rw [List.mem_filter]
    exact ⟨List.mem_dedup.mpr (List.mem_map_of_mem PlanStep.id hs),
      by rw [hnone]; rfl⟩
  have hnodup : ((all.map PlanStep.id).dedup.filter
      (fun i => (VMap.lookup v i).isNone)).Nodup :=
    (List.nodup_dedup _).filter _
  have herase := hnodup.erase_eq_filter s.id
  have hlen := List.length_erase_of_mem hmem
  rw [hfilter]
  rw [← herase, hlen]
  have hpos : 1 ≤ ((all.map PlanStep.id).dedup.filter
      (fun i => (VMap.lookup v i).isNone)).length :=
    List.length_pos_of_mem hmem
  set n := ((all.map PlanStep.id).dedup.filter
    (fun i => (VMap.lookup v i).isNone)).length with hn
  obtain ⟨m, hm⟩ : ∃ m, n = m + 1 := ⟨n - 1, by omega⟩
  rw [hm, Nat.add_sub_cancel, Nat.succ_mul]

/-- Fuel sufficiency: with the stated budget the traversal never runs out of
fuel. -/
theorem circGo_total (all : List PlanStep) :
    ∀ (fuel : Nat) (task : CircTask) (v : VMap),
      (match task with
        | .step s => s ∈ all ∧ 1 + remWeight all v < fuel
        | .deps ds => (2 + ds.length) + remWeight all v < fuel) →
      (circGo all fuel task v).isSome := by
  intro fuel
  induction fuel with
  | zero =>
    intro task v hh
    match task with
    | .step s => exact absurd hh.2 (Nat.not_lt_zero _)
    | .deps ds => exact absurd hh (Nat.not_lt_zero _)
  | succ f ih =>
    intro task v hh
    match task with
    | .step s =>
      obtain ⟨hs, hlt⟩ := hh
      rw [circGo]
      rcases hl : VMap.lookup v s.id with _ | flag
      · have hdlen := deps_le_maxDepsLen all s hs
        have hwt := remWeight_insert all v s true hs hl
        have hrec : (circGo all f (.deps s.dependencies)
            (v.insert s.id true)).isSome := by
          refine ih _ _ ?_
          show (2 + s.dependencies.length) +
            remWeight all (v.insert s.id true) < f
          omega
        rcases hr : circGo all f (.deps s.dependencies) (v.insert s.id true)
          with _ | ⟨bb, v2⟩
        · simp [hr] at hrec
        · cases bb <;> rfl
      · rfl
    | .deps [] =>
      rw [circGo]
      rfl
    | .deps (d :: ds) =>
      rw [circGo]
      rcases hf : List.find? (fun s => s.id == d) all with _ | depStep
      · rw [hf]
        refine ih _ _ ?_
        show (2 + ds.length) + remWeight all v < f
        simp only [List.length_cons] at hh
        omega
      · rw [hf]
        dsimp only
        have hdep_mem : depStep ∈ all := List.mem_of_find?_eq_some hf
        simp only [List.length_cons] at hh
        have h1 : (circGo all f (.step depStep) v).isSome := by
          refine ih _ _ ?_
          show depStep ∈ all ∧ 1 + remWeight all v < f
          exact ⟨hdep_mem, by omega⟩
        rcases hrec : circGo all f (.step depStep) v with _ | ⟨bb, v2⟩
        · simp [hrec] at h1
        · cases bb
          · have hmono := remWeight_mono all v v2
              (circGo_preserves all f _ v false v2 hrec).1
            refine ih _ _ ?_
            show (2 + ds.length) + remWeight all v2 < f
            omega
          · rfl

/-- Soundness of the traversal: whenever `circGo` reports `true`, the
dependency graph really has a cycle.  The invariant carried down the
recursion: every grey id has a dependency path to the id currently being
visited, so meeting a grey dependency closes a cycle. -/
theorem circGo_sound (all : List PlanStep) :
    ∀ (fuel : Nat),
      (∀ (s : PlanStep) (v v' : VMap), s ∈ all →
        (∀ g, VMap.lookup v g = some true →
          Relation.ReflTransGen (depRel all) g s.id) →
        (VMap.lookup v s.id = some true →
          ∃ x, Relation.TransGen (depRel all) x x) →
        circGo all fuel (.step s) v = some (true, v') →
        ∃ x, Relation.TransGen (depRel all) x x)
      ∧ (∀ (ds : List String) (a : String) (v v' : VMap),
        VMap.lookup v a = some true →
        (∀ g, VMap.lookup v g = some true →
          Relation.ReflTransGen (depRel all) g a) →
        (∀ d ∈ ds, depRel all a d) →
        circGo all fuel (.deps ds) v = some (true, v') →
        ∃ x, Relation.TransGen (depRel all) x x) := by
  intro fuel
  induction fuel with
  | zero =>
    constructor
    · intro s v v' _ _ _ h
      rw [circGo] at h
      exact absurd h (by simp)
    · intro ds a v v' _ _ _ h
      rw [circGo] at h
      exact absurd h (by simp)
  | succ f ih =>
    constructor
    · intro s v v' hs hgray hself h
      rw [circGo] at h
      rcases hl : VMap.lookup v s.id with _ | flag
      · rw [hl] at h
        dsimp only at h
        rcases hrec : circGo all f (.deps s.dependencies) (v.insert s.id true)
          with _ | ⟨bb, v2⟩
        · rw [hrec] at h
          exact absurd h (by simp)
        · rw [hrec] at h
          cases bb
          · simp at h
          · refine ih.2 s.dependencies s.id (v.insert s.id true) v2
              (VMap.lookup_insert_self v s.id true) ?_ ?_ hrec
            · intro g hg
              rw [VMap.lookup_insert] at hg
              by_cases he : g = s.id
              · rw [he]
              · rw [if_neg he] at hg
                exact hgray g hg
            · intro d hd
              exact ⟨s, hs, rfl, hd⟩
      · rw [hl] at h
        dsimp only at h
        simp only [Option.some.injEq, Prod.mk.injEq] at h
        obtain ⟨hb, -⟩ := h
        exact hself (by rw [hl, hb])
    · intro ds a v v' ha hgray hR h
      match ds with
      | [] =>
        rw [circGo] at h
        simp at h
      | d :: ds' =>
        rw [circGo] at h
        rcases hf : List.find? (fun s => s.id == d) all with _ | depStep
        · rw [hf] at h
          dsimp only at h
          exact ih.2 ds' a v v' ha hgray
            (fun d' hd' => hR d' (List.mem_cons_of_mem d hd')) h
        · rw [hf] at h
          dsimp only at h
          have hdep_mem : depStep ∈ all := List.mem_of_find?_eq_some hf
          have hid : depStep.id = d := by
            have := List.find?_some hf
            simpa using this
          have hedge : depRel all a depStep.id := by
            rw [hid]
            exact hR d (List.mem_cons_self d ds')
          rcases hrec : circGo all f (.step depStep) v with _ | ⟨bb, v2⟩
          · rw [hrec] at h
            exact absurd h (by simp)
          · rw [hrec] at h
            cases bb
            · refine ih.2 ds' a v2 v' ?_ ?_
                (fun d' hd' => hR d' (List.mem_cons_of_mem d hd')) h
              · exact ((circGo_preserves all f _ v false v2 hrec).2.2 rfl a).mpr ha
              · intro g hg
                exact hgray g
                  (((circGo_preserves all f _ v false v2 hrec).2.2 rfl g).mp hg)
            · refine ih.1 depStep v v2 hdep_mem ?_ ?_ hrec
              · intro g hg
                exact Relation.ReflTransGen.tail (hgray g hg) hedge
              · intro hgrayDep
                exact ⟨depStep.id,
                  Relation.TransGen.tail' (hgray depStep.id hgrayDep) hedge⟩

/-- An id fully resolved by the traversal. -/
def VBlack (v : VMap) (k : String) : Prop :=
  VMap.lookup v k = some false

/-- The completeness invariant: black ids form a successor-closed, cycle-free
part of the dependency graph. -/
def BlackInv (all : List PlanStep) (v : VMap) : Prop :=
  (∀ k j, VBlack v k → depRel all k j → VBlack v j)
    ∧ (∀ k, VBlack v k → ¬ Relation.TransGen (depRel all) k k)

theorem black_reach (all : List PlanStep) (v : VMap)
    (hclosed : ∀ k j, VBlack v k → depRel all k j → VBlack v j) :
    ∀ x y, VBlack v x → Relation.ReflTransGen (depRel all) x y → VBlack v y := by
  intro x y hx hxy
  induction hxy with
  | refl => exact hx
  | tail _ hstep ih => exact hclosed _ _ ih hstep

theorem step_id_unique (all : List PlanStep)
    (ND : (all.map PlanStep.id).Nodup) (s t : PlanStep)
    (hs : s ∈ all) (ht : t ∈ all) (h : s.id = t.id) : s = t :=
  List.inj_on_of_nodup_map ND hs ht h

/-- Completeness of the traversal: a clean (`false`) return paints the
visited step black while keeping the black region successor-closed and
cycle-free — so a plan whose every step ends black is acyclic. -/
theorem circGo_complete (all : List PlanStep)
    (WF : ∀ s ∈ all, ∀ d ∈ s.dependencies, ∃ t ∈ all, t.id = d)
    (ND : (all.map PlanStep.id).Nodup) :
    ∀ (fuel : Nat),
      (∀ (s : PlanStep) (v v' : VMap) (b : Bool), s ∈ all → BlackInv all v →
        circGo all fuel (.step s) v = some (b, v') →
        BlackInv all v' ∧ (b = false → VBlack v' s.id))
      ∧ (∀ (ds : List String) (v v' : VMap) (b : Bool),
        (∀ d ∈ ds, ∃ t ∈ all, t.id = d) → BlackInv all v →
        circGo all fuel (.deps ds) v = some (b, v') →
        BlackInv all v' ∧ (b = false → ∀ d ∈ ds, VBlack v' d)) := by
  intro fuel
  induction fuel with
  | zero =>
    constructor
    · intro s v v' b _ _ h
      rw [circGo] at h
      exact absurd h (by simp)
    · intro ds v v' b _ _ h
      rw [circGo] at h
      exact absurd h (by simp)
  | succ f ih =>
    constructor
    · intro s v v' b hs hinv h
      rw [circGo] at h
      rcases hl : VMap.lookup v s.id with _ | flag
      · rw [hl] at h
        dsimp only at h
        have hbv1 : ∀ k, VBlack (v.insert s.id true) k ↔ VBlack v k := by
          intro k
          unfold VBlack
          rw [VMap.lookup_insert]
          by_cases he : k = s.id
          · rw [if_pos he, he, hl]
            simp
          · rw [if_neg he]
        have hinv1 : BlackInv all (v.insert s.id true) := by
          constructor
          · intro k j hk hkj
            exact (hbv1 j).mpr (hinv.1 k j ((hbv1 k).mp hk) hkj)
          · intro k hk
            exact hinv.2 k ((hbv1 k).mp hk)
        rcases hrec : circGo all f (.deps s.dependencies) (v.insert s.id true)
          with _ | ⟨bb, v2⟩
        · rw [hrec] at h
          exact absurd h (by simp)
        · rw [hrec] at h
          obtain ⟨hinv2, hblacks⟩ := ih.2 s.dependencies (v.insert s.id true) v2
            bb (WF s hs) hinv1 hrec
          cases bb
          · -- clean return: paint s.id black
            simp only [Option.some.injEq, Prod.mk.injEq] at h
            obtain ⟨hb, hv⟩ := h
            subst hb hv
            have hgray2 : VMap.lookup v2 s.id = some true :=
              ((circGo_preserves all f _ _ false v2 hrec).2.2 rfl s.id).mpr
                (VMap.lookup_insert_self v s.id true)
            have hdeps := hblacks rfl
            have hchar : ∀ k, VBlack (v2.insert s.id false) k ↔
                (k = s.id ∨ VBlack v2 k) := by
              intro k
              unfold VBlack
              rw [VMap.lookup_insert]
              by_cases he : k = s.id
              · simp [he]
              · simp only [if_neg he]
                constructor
                · exact fun hh => Or.inr hh
                · rintro (hh | hh)
                  · exact absurd hh he
                  · exact hh
            refine ⟨⟨?_, ?_⟩, fun _ => (hchar s.id).mpr (Or.inl rfl)⟩
            · intro k j hk hkj
              rcases (hchar k).mp hk with he | hbk
              · subst he
                obtain ⟨s', hs', hid', hj'⟩ := hkj
                have hss : s' = s := step_id_unique all ND s' s hs' hs hid'
                subst hss
                exact (hchar j).mpr (Or.inr (hdeps j hj'))
              · exact (hchar j).mpr (Or.inr (hinv2.1 k j hbk hkj))
            · intro k hk hcyc
              rcases (hchar k).mp hk with he | hbk
              · subst he
                obtain ⟨c, hc, hcyc'⟩ := Relation.TransGen.head'_iff.mp hcyc
                obtain ⟨s', hs', hid', hj'⟩ := hc
                have hss : s' = s := step_id_unique all ND s' s hs' hs hid'
                have hcb : VBlack v2 c := hdeps c (hss ▸ hj')
                have : VBlack v2 s.id :=
                  black_reach all v2 hinv2.1 c s.id hcb hcyc'
                rw [VBlack, hgray2] at this
                exact absurd this (by simp)
              · exact hinv2.2 k hbk hcyc
          · -- a cycle was reported: nothing becomes black
            simp only [Option.some.injEq, Prod.mk.injEq] at h
            obtain ⟨hb, hv⟩ := h
            subst hb hv
            exact ⟨hinv2, fun habs => absurd habs (by simp)⟩
      · rw [hl] at h
        dsimp only at h
        simp only [Option.some.injEq, Prod.mk.injEq] at h
        obtain ⟨hb, hv⟩ := h
        subst hb hv
        refine ⟨hinv, fun hbf => ?_⟩
        rw [VBlack, hl, hbf]
    · intro ds v v' b hds hinv h
      match ds with
      | [] =>
        rw [circGo] at h
        simp only [Option.some.injEq, Prod.mk.injEq] at h
        obtain ⟨hb, hv⟩ := h
        subst hb hv
        exact ⟨hinv, fun _ d hd => absurd hd (List.not_mem_nil d)⟩
      | d :: ds' =>
        rw [circGo] at h
        rcases hf : List.find? (fun s => s.id == d) all with _ | depStep
        · obtain ⟨t, ht, htid⟩ := hds d (List.mem_cons_self d ds')
          have hsome : (List.find? (fun s => s.id == d) all).isSome :=
            List.find?_isSome.mpr ⟨t, ht, by simp [htid]⟩
          rw [hf] at hsome
          exact absurd hsome (by simp)
        · rw [hf] at h
          dsimp only at h
          have hdep_mem : depStep ∈ all := List.mem_of_find?_eq_some hf
          have hid : depStep.id = d := by
            have := List.find?_some hf
            simpa using this
          rcases hrec : circGo all f (.step depStep) v with _ | ⟨bb, v2⟩
          · rw [hrec] at h
            exact absurd h (by simp)
          · rw [hrec] at h
            obtain ⟨hinv2, hblackd⟩ := ih.1 depStep v v2 bb hdep_mem hinv hrec
            cases bb
            · obtain ⟨hinv3, hblacks⟩ := ih.2 ds' v2 v' b
                (fun d' hd' => hds d' (List.mem_cons_of_mem d hd')) hinv2 h
              refine ⟨hinv3, fun hbf d' hd' => ?_⟩
              rcases List.mem_cons.mp hd' with he | hm
              · subst he
                have hd2 : VBlack v2 d' := hid ▸ hblackd rfl
                exact (circGo_preserves all f _ v2 b v' h).2.1 d' hd2
              · exact hblacks hbf d' hm
            · simp only [Option.some.injEq, Prod.mk.injEq] at h
              obtain ⟨hb, hv⟩ := h
              subst hb hv
              exact ⟨hinv2, fun habs => absurd habs (by simp)⟩

theorem validateGo_spec (all : List PlanStep)
    (WF : ∀ s ∈ all, ∀ d ∈ s.dependencies, ∃ t ∈ all, t.id = d)
    (ND : (all.map PlanStep.id).Nodup) (fuel : Nat) :
    ∀ (steps : List PlanStep) (v : VMap),
      (∀ s ∈ steps, s ∈ all) →
      (∀ k, VMap.lookup v k ≠ some true) →
      BlackInv all v →
      1 + remWeight all v < fuel →
      (validateGo all fuel steps v).isSome
      ∧ (∀ e, validateGo all fuel steps v = some (.error e) →
          ∃ x, Relation.TransGen (depRel all) x x)
      ∧ (validateGo all fuel steps v = some (.ok ()) →
          ∃ v_end, BlackInv all v_end
            ∧ (∀ k, VBlack v k → VBlack v_end k)
            ∧ ∀ s ∈ steps, VBlack v_end s.id) := by
  intro steps
  induction steps with
  | nil =>
    intro v _ _ hinv _
    rw [validateGo]
    refine ⟨rfl, ?_, ?_⟩
    · intro e he
      exact absurd he (by simp)
    · intro _
      exact ⟨v, hinv, fun k hk => hk, fun s hs => absurd hs (List.not_mem_nil s)⟩
  | cons s rest ih =>
    intro v hsub hempty hinv hfuel
    have hs_all : s ∈ all := hsub s (List.mem_cons_self s rest)
    have hcirc_some : (circGo all fuel (.step s) v).isSome :=
      circGo_total all fuel (.step s) v ⟨hs_all, hfuel⟩
    rcases hcirc : circGo all fuel (.step s) v with _ | ⟨b, v1⟩
    · rw [hcirc] at hcirc_some
      exact absurd hcirc_some (by simp)
    · rw [validateGo, hcirc]
      cases b
      · -- clean traversal of `s`: continue with the shared map
        obtain ⟨hpkeys, hpblack, hptrue⟩ := circGo_preserves all fuel _ v false v1 hcirc
        obtain ⟨hinv1, hblack1⟩ :=
          (circGo_complete all WF ND fuel).1 s v v1 false hs_all hinv hcirc
        have hempty1 : ∀ k, VMap.lookup v1 k ≠ some true := fun k hk =>
          hempty k ((hptrue rfl k).mp hk)
        have hfuel1 : 1 + remWeight all v1 < fuel :=
          lt_of_le_of_lt (by
            have := remWeight_mono all v v1 hpkeys
            omega) hfuel
        obtain ⟨hsome, herr, hok⟩ := ih v1
          (fun t ht => hsub t (List.mem_cons_of_mem s ht)) hempty1 hinv1 hfuel1
        refine ⟨hsome, herr, ?_⟩
        intro hokk
        obtain ⟨v_end, hinvEnd, hpres, hblacks⟩ := hok hokk
        refine ⟨v_end, hinvEnd, fun k hk => hpres k (hpblack k hk), ?_⟩
        intro t ht
        rcases List.mem_cons.mp ht with he | hm
        · subst he
          exact hpres t.id (hblack1 rfl)
        · exact hblacks t hm
      · -- a cycle was reported: the loop bails out with the error
        refine ⟨rfl, ?_, ?_⟩
        · intro e _
          refine (circGo_sound all fuel).1 s v v1 hs_all ?_ ?_ hcirc
          · intro g hg
            exact absurd hg (hempty g)
          · intro hg
            exact absurd hg (hempty s.id)
        · intro hok
          exact absurd hok (by simp)

/-- Replace every step's fallback list, leaving ids and dependencies (and
all other fields) unchanged. -/
def mapFallbacks (f : PlanStep → List PlanStep) (plan : ExecutionPlan) :
    ExecutionPlan :=
  { plan with steps := plan.steps.map (fun s => s.withFallbacks (f s)) }

theorem withFallbacks_id (s : PlanStep) (l : List PlanStep) :
    (s.withFallbacks l).id = s.id := by
  cases s; rfl

theorem withFallbacks_dependencies (s : PlanStep) (l : List PlanStep) :
    (s.withFallbacks l).dependencies = s.dependencies := by
  cases s; rfl

theorem circGo_map (all : List PlanStep) (g : PlanStep → PlanStep)
    (hg : ∀ s, (g s).id = s.id ∧ (g s).dependencies = s.dependencies) :
    ∀ fuel : Nat,
      (∀ (s : PlanStep) (v : VMap),
        circGo (all.map g) fuel (.step (g s)) v = circGo all fuel (.step s) v)
      ∧ (∀ (ds : List String) (v : VMap),
        circGo (all.map g) fuel (.deps ds) v = circGo all fuel (.deps ds) v) := by
  intro fuel
  induction fuel with
  | zero =>
    exact ⟨fun s v => rfl, fun ds v => rfl⟩
  | succ f ih =>
    constructor
    · intro s v
      rw [circGo, circGo, (hg s).1, (hg s).2, ih.2]
    · intro ds v
      match ds with
      | [] => rfl
      | d :: ds' =>
        rw [circGo, circGo]
        have hfind : List.find? (fun s => s.id == d) (all.map g) =
            (List.find? (fun s => s.id == d) all).map g := by
          rw [List.find?_map]
          have hp : (fun s => PlanStep.id s == d) ∘ g =
              fun s => PlanStep.id s == d := by
            funext t
            simp only [Function.comp_apply, (hg t).1]
          rw [hp]
        rw [hfind]
        rcases hfa : List.find? (fun s => s.id == d) all with _ | t
        · rw [hfa, Option.map_none', ih.2]
        · rw [hfa, Option.map_some']
          dsimp only
          rw [ih.1 t v]
          rcases hc : circGo all f (.step t) v with _ | ⟨bb, v2⟩
          · rfl
          · cases bb
            · exact ih.2 ds' v2
            · rfl

theorem validateGo_map (all : List PlanStep) (g : PlanStep → PlanStep)
    (hg : ∀ s, (g s).id = s.id ∧ (g s).dependencies = s.dependencies)
    (fuel : Nat) :
    ∀ (steps : List PlanStep) (v : VMap),
      validateGo (all.map g) fuel (steps.map g) v = validateGo all fuel steps v := by
  intro steps
  induction steps with
  | nil => intro v; rfl
  | cons s rest ih =>
    intro v
    rw [List.map_cons, validateGo, validateGo, (circGo_map all g hg fuel).1 s v]
    rcases circGo all fuel (.step s) v with _ | ⟨b, v1⟩
    · rfl
    · cases b
      · exact ih v1
      · rfl

theorem planFuel_map (all : List PlanStep) (g : PlanStep → PlanStep)
    (hg : ∀ s, (g s).id = s.id ∧ (g s).dependencies = s.dependencies) :
    planFuel (all.map g) = planFuel all := by
  unfold planFuel maxDepsLen
  rw [List.foldr_map, List.map_map]
  have h1 : (fun s acc => max (g s).dependencies.length acc) =
      (fun s acc => max s.dependencies.length acc) := by
    funext t acc
    rw [(hg t).2]
  have h2 : PlanStep.id ∘ g = PlanStep.id := by
    funext t
    exact (hg t).1
  rw [h1, h2]

/-- **C1.**  For every plan whose dependency ids all name steps of the plan
(and whose step ids are unique, the data-model invariant), `validate_plan`
returns ok exactly when the dependency graph is acyclic and reports the
circular-dependency error exactly when it has a cycle; and the traversal
follows `dependencies` edges only — replacing every step's `fallback_steps`
arbitrarily leaves the verdict unchanged. -/
theorem validate_plan_correct (plan : ExecutionPlan)
    (hWF : DepsClosed plan) (hND : NodupIds plan) :
    ((validate_plan plan = Except.ok ()) ↔ PlanAcyclic plan)
    ∧ ∀ f : PlanStep → List PlanStep,
        validate_plan (mapFallbacks f plan) = validate_plan plan := by
  constructor
  · have hinv0 : BlackInv plan.steps VMap.empty := by
      constructor
      · intro k j hk _
        exact absurd hk (by rw [VBlack]; simp [VMap.lookup, VMap.empty])
      · intro k hk
        exact absurd hk (by rw [VBlack]; simp [VMap.lookup, VMap.empty])
    have hempty0 : ∀ k, VMap.lookup VMap.empty k ≠ some true := by
      intro k
      simp [VMap.lookup, VMap.empty]
    have hfuel0 : 1 + remWeight plan.steps VMap.empty < planFuel plan.steps := by
      unfold remWeight planFuel
      have hle : ((plan.steps.map PlanStep.id).dedup.filter
          (fun i => (VMap.lookup VMap.empty i).isNone)).length ≤
          (plan.steps.map PlanStep.id).dedup.length :=
        List.length_filter_le _ _
      have := Nat.mul_le_mul_right (maxDepsLen plan.steps + 2) hle
      calc 1 + ((plan.steps.map PlanStep.id).dedup.filter
            (fun i => (VMap.lookup VMap.empty i).isNone)).length *
            (maxDepsLen plan.steps + 2)
          ≤ 1 + (plan.steps.map PlanStep.id).dedup.length *
              (maxDepsLen plan.steps + 2) := by omega
        _ < (maxDepsLen plan.steps + 2) *
              (plan.steps.map PlanStep.id).dedup.length + 2 := by
            rw [Nat.mul_comm]
            omega
    obtain ⟨hsome, herr, hok⟩ := validateGo_spec plan.steps hWF hND
      (planFuel plan.steps) plan.steps VMap.empty (fun s hs => hs)
      hempty0 hinv0 hfuel0
    rcases hval : validateGo plan.steps (planFuel plan.steps) plan.steps
        VMap.empty with _ | r
    · rw [hval] at hsome
      exact absurd hsome (by simp)
    · have hvp : validate_plan plan = r := by
        unfold validate_plan
        rw [hval]
        rfl
      match r with
      | .ok () =>
        refine iff_of_true hvp ?_
        rintro ⟨x, hx⟩
        obtain ⟨v_end, hinvEnd, -, hblacks⟩ := hok (by rw [hval])
        obtain ⟨c, hc, -⟩ := Relation.TransGen.head'_iff.mp hx
        obtain ⟨t, ht, htid, -⟩ := hc
        have hbx : VBlack v_end x := htid ▸ hblacks t ht
        exact hinvEnd.2 x hbx hx
      | .error e =>
        refine iff_of_false ?_ ?_
        · rw [hvp]
          intro hcontr
          exact Except.noConfusion hcontr
        · intro hacyclic
          exact hacyclic (herr e (by rw [hval]))
  · intro f
    show (validateGo (mapFallbacks f plan).steps
        (planFuel (mapFallbacks f plan).steps) (mapFallbacks f plan).steps
        VMap.empty).getD (.error "fuel exhausted") = _
    have hg : ∀ s : PlanStep,
        ((fun t : PlanStep => t.withFallbacks (f t)) s).id = s.id ∧
        ((fun t : PlanStep => t.withFallbacks (f t)) s).dependencies =
          s.dependencies :=
      fun s => ⟨withFallbacks_id s (f s), withFallbacks_dependencies s (f s)⟩
    have hsteps : (mapFallbacks f plan).steps =
        plan.steps.map (fun t : PlanStep => t.withFallbacks (f t)) := rfl
    rw [hsteps, planFuel_map plan.steps _ hg,
      validateGo_map plan.steps _ hg (planFuel plan.steps) plan.steps VMap.empty]
    rfl

/-- **C1 witness.** -/
theorem validate_plan_correct_witness :
    DepsClosed samplePlan ∧ NodupIds samplePlan
    ∧ validate_plan samplePlan = Except.ok ()
    ∧ PlanAcyclic samplePlan
    ∧ validate_plan (mapFallbacks (fun _ => [sampleStep1]) samplePlan) =
        validate_plan samplePlan :=
  ⟨by decide, by decide, rfl,
    (validate_plan_correct samplePlan (by decide) (by decide)).1.mp rfl,
    (validate_plan_correct samplePlan (by decide) (by decide)).2 _⟩

end Miow
